import Mathlib

/-!
Tic-tac-toe (`src/tic-tac-toe/app.js`).

A shallow embedding of the game script.  The four module-level variables
`board`, `currentPlayer`, `gameOver`, `selectedIndex` become the fields of `State`;
every function that assigns to them becomes a function `State → … → State × List Effect`,
the second component being the DOM calls the function performs, in program order.

JavaScript values are modelled as follows.

* a cell of `board` holds `'X'`, `'O'` or `null`: `Option Mark`, with `none` for `null`;
* an array read `board[i]` yields `undefined` outside the array: `Option (Option Mark)`,
  with `none` for `undefined`;
* `selectedIndex`, the arguments of `moveSelection` and the argument of `handleMove` are
  integers: `Int`.

The two listeners are `boardClick` and `keydown`; `Event`, `step` and `run` describe the
states the page can reach; `topLevel` and `startup` describe the statements executed when
the script is loaded.
-/

set_option autoImplicit false

namespace TicTacToe

/-! ## Data model -/

/-- A player's mark, the strings `'X'` and `'O'` of the script. -/
inductive Mark where
  | X
  | O
  deriving DecidableEq, Repr, Fintype

/-- The string a mark is in the script (used in template literals). -/
def Mark.toString : Mark → String
  | Mark.X => "X"
  | Mark.O => "O"

/-- One entry of `board`: `none` is `null`, `some m` is the string of mark `m`. -/
abbrev Cell := Option Mark

/-- The array `board`. -/
abbrev Board := List Cell

/-- The module-level game variables (lines 2-5). -/
structure State where
  board : Board
  currentPlayer : Mark
  gameOver : Bool
  selectedIndex : Int
  deriving DecidableEq, Repr

/-- The values the variables are initialised with (lines 2-5):
`Array(9).fill(null)`, `'X'`, `false`, `0`. -/
def initialState : State :=
  { board := List.replicate 9 none, currentPlayer := Mark.X, gameOver := false, selectedIndex := 0 }

/-- The constant `WIN_LINES` (lines 7-11): rows, columns, diagonals. -/
def WIN_LINES : List (Nat × Nat × Nat) :=
  [(0, 1, 2), (3, 4, 5), (6, 7, 8),
   (0, 3, 6), (1, 4, 7), (2, 5, 8),
   (0, 4, 8), (2, 4, 6)]

/-- A call the script makes on the page.  The page itself is not part of the script;
only the calls and their arguments are recorded. -/
inductive Effect where
  /-- The call `setStatus(text, type)`. -/
  | setStatus (text : String) (type : String)
  /-- The loop `cells.forEach(...)` of `render`, which reads `board`, `selectedIndex`
  and `gameOver` and writes each cell's text, mark and classes. -/
  | paintCells (board : Board) (selectedIndex : Int) (gameOver : Bool)
  /-- The call `cells[i].classList.add('win')`. -/
  | addWin (i : Nat)
  /-- The call `boardEl.focus()`. -/
  | focusBoard
  /-- The call `e.preventDefault()` of the keydown handler. -/
  | preventDefault
  /-- The call `target.addEventListener(event, ...)` of the top level. -/
  | addEventListener (target : String) (event : String)
  deriving DecidableEq, Repr

/-- The object `{ winner, line }` returned by `checkWinner`. -/
structure WinResult where
  winner : Mark
  line : List Nat
  deriving DecidableEq, Repr

/-! ## Operations -/

/-- The array read `board[i]` for an integer `i`: `none` (`undefined`) when `i` is
negative or not below the length. -/
def cellAt (board : Board) (i : Int) : Option Cell :=
  if 0 ≤ i then board[i.toNat]? else none

/-- The loop of `checkWinner` (lines 64-68) over the lines still to be scanned.
`board[a] && board[a] === board[b] && board[a] === board[c]` holds exactly when
`board[a]` is a mark (the only truthy values a cell can hold) and the two other reads
give the same mark. -/
def checkWinnerFrom (board : Board) : List (Nat × Nat × Nat) → Option WinResult
  | [] => none
  | (a, b, c) :: rest =>
    match board[a]? with
    | some (some m) =>
      if board[b]? = some (some m) ∧ board[c]? = some (some m) then
        some { winner := m, line := [a, b, c] }
      else checkWinnerFrom board rest
    | _ => checkWinnerFrom board rest

/-- The function `checkWinner` (lines 63-70): `none` is the `null` result. -/
def checkWinner (board : Board) : Option WinResult :=
  checkWinnerFrom board WIN_LINES

/-- The function `isDraw` (lines 72-74): `board.every(v => v !== null)`. -/
def isDraw (board : Board) : Bool :=
  board.all fun v => decide (v ≠ none)

/-- The function `render` (lines 42-60): the calls it makes.  It assigns to no
game variable. -/
def render (s : State) : List Effect :=
  Effect.paintCells s.board s.selectedIndex s.gameOver ::
    (if s.gameOver then [] else [Effect.setStatus ("Turn: " ++ s.currentPlayer.toString) "info"])

/-- The function `moveSelection` (lines 76-86).  `Math.floor(selectedIndex / 3)` is
floor division and `%` is the remainder with the sign of the dividend. -/
def moveSelection (s : State) (dx dy : Int) : State × List Effect :=
  let row := Int.fdiv s.selectedIndex 3
  let col := Int.tmod s.selectedIndex 3
  let newRow := max 0 (min 2 (row + dy))
  let newCol := max 0 (min 2 (col + dx))
  let s1 := { s with selectedIndex := newRow * 3 + newCol }
  (s1, render s1)

/-- The function `selectFromMouse` (lines 88-91). -/
def selectFromMouse (s : State) (index : Int) : State × List Effect :=
  let s1 := { s with selectedIndex := index }
  (s1, render s1)

/-- The expression `(currentPlayer === 'X') ? 'O' : 'X'` (line 115). -/
def otherPlayer (p : Mark) : Mark :=
  if p = Mark.X then Mark.O else Mark.X

/-- The function `handleMove` (lines 93-117).  The guard `board[index] !== null`
also returns when the read is `undefined`, that is for an index outside the array. -/
def handleMove (s : State) (index : Int) : State × List Effect :=
  if s.gameOver then (s, [])
  else if cellAt s.board index ≠ some none then (s, [])
  else
    let s1 := { s with board := s.board.set index.toNat (some s.currentPlayer) }
    match checkWinner s1.board with
    | some result =>
      let s2 := { s1 with gameOver := true }
      (s2, Effect.setStatus ("🏆 " ++ result.winner.toString ++ " wins!") "win" ::
            (result.line.map Effect.addWin ++ render s2))
    | none =>
      if isDraw s1.board then
        let s2 := { s1 with gameOver := true }
        (s2, Effect.setStatus "🤝 Draw!" "draw" :: render s2)
      else
        let s2 := { s1 with currentPlayer := otherPlayer s1.currentPlayer }
        (s2, render s2)

/-- The function `resetGame` (lines 119-130). -/
def resetGame (s : State) : State × List Effect :=
  let s1 : State :=
    { s with board := List.replicate 9 none, currentPlayer := Mark.X,
             gameOver := false, selectedIndex := 0 }
  (s1, Effect.setStatus "Turn: X" "info" :: (render s1 ++ [Effect.focusBoard]))

/-- A sequence of `handleMove` calls, one per index, with nothing in between. -/
def playMoves (s : State) : List Int → State
  | [] => s
  | i :: rest => playMoves (handleMove s i).1 rest

/-- What `isTypingInField` reads of `document.activeElement`: its `tagName`
(`none` when the property is absent) and whether `isContentEditable` is truthy. -/
structure Element where
  tagName : Option String
  isContentEditable : Bool
  deriving DecidableEq, Repr

/-- The method `toLowerCase` on the letters A-Z; the other characters are kept.  The
result is only ever compared with `'input'` and `'textarea'`, and no character outside
A-Z is turned by `toLowerCase` into a letter of these two words. -/
def toLowerCase (t : String) : String :=
  String.mk (t.data.map Char.toLower)

/-- The function `isTypingInField` (lines 20-25); `activeElement` is
`document.activeElement`, `none` when there is none. -/
def isTypingInField (activeElement : Option Element) : Bool :=
  match activeElement with
  | none => false
  | some el =>
    let tag := el.tagName.map toLowerCase
    decide (tag = some "input") || decide (tag = some "textarea") || el.isContentEditable

/-- The click listener of the board (lines 132-143).  `cell` is `none` when
`e.target.closest('.cell')` finds no cell, and otherwise the number read from the
cell's `data-i`. -/
def boardClick (s : State) (cell : Option Int) : State × List Effect :=
  match cell with
  | none => (s, [])
  | some index =>
    let r1 := selectFromMouse s index
    let r2 := handleMove r1.1 index
    (r2.1, r1.2 ++ Effect.focusBoard :: r2.2)

/-- The array `keys` of the keydown listener (line 150). -/
def gameKeys : List String :=
  ["ArrowUp", "ArrowDown", "ArrowLeft", "ArrowRight", "Enter", " "]

/-- The keydown listener (lines 145-173); `key` is `e.key`. -/
def keydown (s : State) (activeElement : Option Element) (key : String) :
    State × List Effect :=
  if s.gameOver then (s, [])
  else if isTypingInField activeElement then (s, [])
  else if ¬ key ∈ gameKeys then (s, [])
  else
    let r :=
      if key = "ArrowUp" then moveSelection s 0 (-1)
      else if key = "ArrowDown" then moveSelection s 0 1
      else if key = "ArrowLeft" then moveSelection s (-1) 0
      else if key = "ArrowRight" then moveSelection s 1 0
      else if key = "Enter" ∨ key = " " then handleMove s s.selectedIndex
      else (s, [])
    (r.1, Effect.preventDefault :: r.2)

/-- What can happen to the page once the script is loaded: a direct call of one of the
four state-changing functions, a click on the board, or a key press. -/
inductive Event where
  | handleMove (index : Int)
  | moveSelection (dx dy : Int)
  | selectFromMouse (index : Int)
  | resetGame
  | click (cell : Option Int)
  | keydown (activeElement : Option Element) (key : String)
  deriving DecidableEq, Repr

/-- The state after one event. -/
def step (s : State) : Event → State
  | Event.handleMove index => (handleMove s index).1
  | Event.moveSelection dx dy => (moveSelection s dx dy).1
  | Event.selectFromMouse index => (selectFromMouse s index).1
  | Event.resetGame => (resetGame s).1
  | Event.click cell => (boardClick s cell).1
  | Event.keydown activeElement key => (keydown s activeElement key).1

/-- The state after a sequence of events. -/
def run (s : State) : List Event → State
  | [] => s
  | e :: rest => run (step s e) rest

/-- The event names a cell of the board where it names one: a click on a cell, or a
direct `selectFromMouse`, carries an index in 0..8. -/
def Event.onBoard : Event → Prop
  | Event.click (some index) => 0 ≤ index ∧ index ≤ 8
  | Event.selectFromMouse index => 0 ≤ index ∧ index ≤ 8
  | _ => True

instance (e : Event) : Decidable e.onBoard := by
  cases e with
  | click cell => cases cell <;> (unfold Event.onBoard; infer_instance)
  | handleMove _ => unfold Event.onBoard; infer_instance
  | moveSelection _ _ => unfold Event.onBoard; infer_instance
  | selectFromMouse _ => unfold Event.onBoard; infer_instance
  | resetGame => unfold Event.onBoard; infer_instance
  | keydown _ _ => unfold Event.onBoard; infer_instance

/-- The status of the specification: in progress, won by a player on a line, or draw. -/
inductive Status where
  | inProgress
  | won (player : Mark) (line : List Nat)
  | draw
  deriving DecidableEq, Repr

/-- The value `handleMove` hands back to its caller (lines 93-117), `none` being
`undefined`: the two guards and the win and draw branches leave by a bare `return;`, and
the last branch by the end of the body. -/
def handleMoveReturn (s : State) (index : Int) : Option Status :=
  if s.gameOver then none
  else if cellAt s.board index ≠ some none then none
  else
    match checkWinner (s.board.set index.toNat (some s.currentPlayer)) with
    | some _ => none
    | none =>
      if isDraw (s.board.set index.toNat (some s.currentPlayer)) then none
      else none

/-- A statement of the top level of the script, from line 132 on. -/
inductive Statement where
  /-- The statement `target.addEventListener(event, ...)`. -/
  | addEventListener (target : String) (event : String)
  /-- The statement `name();`, a call without arguments whose value is dropped. -/
  | call (name : String)
  /-- The statement `boardEl.focus();`. -/
  | focusBoard
  deriving DecidableEq, Repr

/-- Every name the script binds at its top level: the `let` and `const` variables
(lines 2-18) and the function declarations.  `rrender` is not among them, and it is not
a name the browser provides. -/
def declaredNames : List String :=
  ["board", "currentPlayer", "gameOver", "selectedIndex", "WIN_LINES",
   "boardEl", "cells", "statusBannerEl", "statusTextEl", "resetBtn",
   "isTypingInField", "setStatus", "render", "checkWinner", "isDraw",
   "moveSelection", "selectFromMouse", "handleMove", "resetGame"]

/-- The functions of the script that take no argument, by name, as state transformers;
`none` for every other name. -/
def declaredFunction (name : String) : Option (State → State × List Effect) :=
  if name = "render" then some fun s => (s, render s)
  else if name = "resetGame" then some resetGame
  else if name = "checkWinner" ∨ name = "isDraw" ∨ name = "isTypingInField" then
    some fun s => (s, [])
  else none

/-- How a run of statements ends: the state, the calls made on the page, and the error
that stopped the run, if one was raised. -/
structure Completion where
  state : State
  effects : List Effect
  error : Option String
  deriving DecidableEq, Repr

/-- Runs statements in order.  A call of a name the script does not declare raises a
`ReferenceError`, which ends the run: the statements after it are not executed.  A call
without arguments of a declared name that is a variable or a function with parameters
is not described here, and ends the run as well. -/
def runStatements (s : State) : List Statement → Completion
  | [] => { state := s, effects := [], error := none }
  | Statement.addEventListener target event :: rest =>
    let c := runStatements s rest
    { c with effects := Effect.addEventListener target event :: c.effects }
  | Statement.call name :: rest =>
    match declaredFunction name with
    | some f =>
      let c := runStatements (f s).1 rest
      { c with effects := (f s).2 ++ c.effects }
    | none =>
      if name ∈ declaredNames then
        { state := s, effects := [], error := some (name ++ "() is not described") }
      else
        { state := s, effects := [],
          error := some ("ReferenceError: " ++ name ++ " is not defined") }
  | Statement.focusBoard :: rest =>
    let c := runStatements s rest
    { c with effects := Effect.focusBoard :: c.effects }

/-- The statements of the top level after the declarations (lines 132-180): the three
listeners are registered, then line 179 reads `rrender();`, then `boardEl.focus();`.
The page is taken to provide the elements looked up at lines 14-18. -/
def topLevel : List Statement :=
  [Statement.addEventListener "boardEl" "click",
   Statement.addEventListener "window" "keydown",
   Statement.addEventListener "resetBtn" "click",
   Statement.call "rrender",
   Statement.focusBoard]

/-- The run of the script when the page loads. -/
def startup : Completion :=
  runStatements initialState topLevel

/-! ## Vocabulary of the specification -/

/-- The three cells of line `l` all hold mark `m`. -/
def lineHeldBy (board : Board) (l : Nat × Nat × Nat) (m : Mark) : Prop :=
  board[l.1]? = some (some m) ∧ board[l.2.1]? = some (some m) ∧ board[l.2.2]? = some (some m)

instance (board : Board) (l : Nat × Nat × Nat) (m : Mark) : Decidable (lineHeldBy board l m) := by
  unfold lineHeldBy; infer_instance

/-- Line `l` is complete: its three cells are non-empty and equal. -/
def lineComplete (board : Board) (l : Nat × Nat × Nat) : Prop :=
  ∃ m : Mark, lineHeldBy board l m

instance (board : Board) (l : Nat × Nat × Nat) : Decidable (lineComplete board l) := by
  unfold lineComplete; infer_instance

/-- Cell `i` of the board is occupied (holds a mark). -/
def occupied (board : Board) (i : Nat) : Prop :=
  ∃ m : Mark, board[i]? = some (some m)

instance (board : Board) (i : Nat) : Decidable (occupied board i) := by
  unfold occupied; infer_instance

/-- A full board whose top row belongs to X; it is the board after the moves
0, 3, 1, 4, 5, 7, 6, 8, 2 from the initial state. -/
def fullBoardWonByX : Board :=
  [some Mark.X, some Mark.X, some Mark.X,
   some Mark.O, some Mark.O, some Mark.X,
   some Mark.X, some Mark.O, some Mark.O]

/-- The marks written to the board by a sequence of `handleMove` calls, in the order
they are written: a call writes `currentPlayer` exactly when it passes both guards of
`handleMove` (game not over, cell read is `null`). -/
def placedMarks (s : State) : List Int → List Mark
  | [] => []
  | i :: rest =>
    if s.gameOver = false ∧ cellAt s.board i = some none then
      s.currentPlayer :: placedMarks (handleMove s i).1 rest
    else placedMarks (handleMove s i).1 rest

/-- The player of the strict alternation X, O, X, O, ... at position `k` (from 0). -/
def turnOf (k : Nat) : Mark :=
  if k % 2 = 0 then Mark.X else Mark.O

/-- The specification's `clamp(v, lo, hi)`: `v` brought back into `[lo, hi]`. -/
def clamp (v lo hi : Int) : Int :=
  if v < lo then lo else if hi < v then hi else v

/-- The status of the specification in a state: in progress while `gameOver` is
`false`; otherwise won when `checkWinner` finds a line, and draw when it finds none. -/
def statusOf (s : State) : Status :=
  if s.gameOver = false then Status.inProgress
  else
    match checkWinner s.board with
    | some result => Status.won result.winner result.line
    | none => Status.draw

/-- The status the banner shows after a list of calls: the arguments of the last
`setStatus` among them, `none` when there is none. -/
def statusShown : List Effect → Option (String × String)
  | [] => none
  | e :: rest =>
    match statusShown rest with
    | some shown => some shown
    | none =>
      match e with
      | Effect.setStatus text type => some (text, type)
      | _ => none

/-- The scan of `checkWinner` restricted to the entries of `WIN_LINES` that pass
through cell `i`, in the same order. -/
def checkWinnerThrough (board : Board) (i : Nat) : Option WinResult :=
  checkWinnerFrom board (WIN_LINES.filter fun l => decide (l.1 = i ∨ l.2.1 = i ∨ l.2.2 = i))

/-- The number of cells of the board that hold mark `m`. -/
def countMark (board : Board) (m : Mark) : Nat :=
  board.count (some m)

/-- The index with which an event calls `handleMove` in state `s`, `none` when it does
not call it: a direct call, a click on a cell, or Enter or Space handled by the keydown
listener. -/
def Event.moveIndex (s : State) : Event → Option Int
  | Event.handleMove index => some index
  | Event.click (some index) => some index
  | Event.keydown activeElement key =>
    if s.gameOver = false ∧ isTypingInField activeElement = false ∧
        (key = "Enter" ∨ key = " ") then some s.selectedIndex
    else none
  | _ => none

/-- The player who placed the last mark, after the events; `last` is that player before
them (`none` when no mark was ever placed).  An event places a mark, `currentPlayer`,
exactly when it calls `handleMove` and the call passes both guards. -/
def lastMover (s : State) (last : Option Mark) : List Event → Option Mark
  | [] => last
  | e :: rest =>
    match e.moveIndex s with
    | some index =>
      if s.gameOver = false ∧ cellAt s.board index = some none then
        lastMover (step s e) (some s.currentPlayer) rest
      else lastMover (step s e) last rest
    | none => lastMover (step s e) last rest

/-- Invariant of the game: the board has 9 cells; while the game is not over no line is
complete and some cell is empty; once it is over there is a winner or the board is full. -/
def OverInv (s : State) : Prop :=
  s.board.length = 9 ∧
  (s.gameOver = false → (∀ l ∈ WIN_LINES, ¬ lineComplete s.board l) ∧ isDraw s.board = false) ∧
  (s.gameOver = true → (checkWinner s.board ≠ none ∨ isDraw s.board = true))

/-- Invariant of the game: the marks are balanced and `currentPlayer` is the player to
move while the game is not over, and the player who moved last once it is over. -/
def CountInv (s : State) : Prop :=
  (s.gameOver = false →
    (s.currentPlayer = Mark.X ∧ countMark s.board Mark.X = countMark s.board Mark.O) ∨
    (s.currentPlayer = Mark.O ∧ countMark s.board Mark.X = countMark s.board Mark.O + 1)) ∧
  (s.gameOver = true →
    (s.currentPlayer = Mark.X ∧ countMark s.board Mark.X = countMark s.board Mark.O + 1) ∨
    (s.currentPlayer = Mark.O ∧ countMark s.board Mark.X = countMark s.board Mark.O))

/-- Invariant of the game: every complete line of `WIN_LINES` is held by
`currentPlayer`. -/
def LineInv (s : State) : Prop :=
  OverInv s ∧ ∀ l ∈ WIN_LINES, ∀ m, lineHeldBy s.board l m → m = s.currentPlayer

/-! ## Rule engine: `checkWinner` and `isDraw` -/

theorem checkWinnerFrom_eq_none_iff (board : Board) (ls : List (Nat × Nat × Nat)) :
    checkWinnerFrom board ls = none ↔ ∀ l ∈ ls, ¬ lineComplete board l := by
  induction ls with
  | nil => simp [checkWinnerFrom]
  | cons l rest ih =>
    obtain ⟨a, b, c⟩ := l
    simp only [checkWinnerFrom, List.mem_cons, forall_eq_or_imp]
    split
    · next m hm =>
      by_cases h : board[b]? = some (some m) ∧ board[c]? = some (some m)
      · rw [if_pos h]
        constructor
        · intro h0
          exact absurd h0 (by simp)
        · intro hnot
          exact absurd ⟨m, hm, h.1, h.2⟩ hnot.1
      · rw [if_neg h, ih]
        constructor
        · intro hr
          refine ⟨?_, hr⟩
          rintro ⟨m', h1, h2, h3⟩
          simp only at h1 h2 h3
          rw [hm] at h1
          have : m = m' := by simpa using h1
          subst this
          exact h ⟨h2, h3⟩
        · exact fun hr => hr.2
    · next hno =>
      rw [ih]
      constructor
      · intro hr
        refine ⟨?_, hr⟩
        rintro ⟨m', h1, _, _⟩
        exact hno m' h1
      · exact fun hr => hr.2

theorem checkWinnerFrom_eq_some (board : Board) (ls : List (Nat × Nat × Nat)) (r : WinResult)
    (h : checkWinnerFrom board ls = some r) :
    ∃ pre l post, ls = pre ++ l :: post ∧ (∀ l' ∈ pre, ¬ lineComplete board l') ∧
      r.line = [l.1, l.2.1, l.2.2] ∧ lineHeldBy board l r.winner := by
  induction ls with
  | nil => simp [checkWinnerFrom] at h
  | cons l rest ih =>
    obtain ⟨a, b, c⟩ := l
    by_cases hc : lineComplete board (a, b, c)
    · obtain ⟨m, h1, h2, h3⟩ := hc
      simp only at h1 h2 h3
      simp only [checkWinnerFrom, h1, h2, h3, and_self, if_true, Option.some.injEq] at h
      subst h
      exact ⟨[], (a, b, c), rest, rfl, by simp, rfl, h1, h2, h3⟩
    · have hrest : checkWinnerFrom board rest = some r := by
        have hn := (checkWinnerFrom_eq_none_iff board [(a, b, c)]).2 (by simpa using hc)
        simp only [checkWinnerFrom] at h hn
        split at h
        · next m hm =>
          rw [hm] at hn
          simp only at hn
          by_cases hb : board[b]? = some (some m) ∧ board[c]? = some (some m)
          · simp [hb] at hn
          · rwa [if_neg hb] at h
        · exact h
      obtain ⟨pre, l, post, hls, hpre, hline, hheld⟩ := ih hrest
      refine ⟨(a, b, c) :: pre, l, post, by simp [hls], ?_, hline, hheld⟩
      intro l' hl'
      rcases List.mem_cons.1 hl' with rfl | hmem
      · exact hc
      · exact hpre l' hmem

theorem isDraw_eq_true_iff (board : Board) :
    isDraw board = true ↔ ∀ i, i < board.length → occupied board i := by
  unfold isDraw occupied
  rw [List.all_eq_true]
  constructor
  · intro h i hi
    have hmem : board[i] ∈ board := List.getElem_mem hi
    have hne := h _ hmem
    simp only [ne_eq, decide_eq_true_eq] at hne
    obtain ⟨m, hm⟩ := Option.ne_none_iff_exists'.1 hne
    exact ⟨m, by rw [List.getElem?_eq_getElem hi, hm]⟩
  · intro h x hx
    obtain ⟨i, hi, rfl⟩ := List.mem_iff_getElem.1 hx
    obtain ⟨m, hm⟩ := h i hi
    rw [List.getElem?_eq_getElem hi] at hm
    simp only [Option.some.injEq] at hm
    simp [hm]

/-- C1: for every board (of any length, so in particular for every board of 9 cells),
`checkWinner` returns a non-null result if and only if at least one of the 8 lines of
`WIN_LINES` has its three cells non-empty and equal; equivalently it returns `null`
exactly on the boards with no three-in-a-row, and it returns `null` on the all-empty
board. -/
theorem checkWinner_nonnull_iff_complete_line (board : Board) :
    (checkWinner board ≠ none ↔ ∃ l ∈ WIN_LINES, lineComplete board l) ∧
    (checkWinner board = none ↔ ∀ l ∈ WIN_LINES, ¬ lineComplete board l) ∧
    checkWinner (List.replicate 9 none) = none := by
  refine ⟨?_, checkWinnerFrom_eq_none_iff board WIN_LINES, by decide⟩
  rw [ne_eq, checkWinner, checkWinnerFrom_eq_none_iff]
  push_neg
  rfl

/-- C2: whenever `checkWinner` returns `{winner, line}`, `line` is one of the 8 fixed
triples, it is the first entry of `WIN_LINES` (in the listed order) whose three cells
are non-empty and identical, no earlier entry being complete, and `winner` is the mark
held by the three cells of `line`. -/
theorem checkWinner_result_first_complete_line (board : Board) (r : WinResult)
    (h : checkWinner board = some r) :
    r.line ∈ [[0, 1, 2], [3, 4, 5], [6, 7, 8], [0, 3, 6], [1, 4, 7], [2, 5, 8],
              [0, 4, 8], [2, 4, 6]] ∧
    (∃ pre l post, WIN_LINES = pre ++ l :: post ∧ r.line = [l.1, l.2.1, l.2.2] ∧
      (∀ k ∈ pre, ¬ lineComplete board k) ∧ lineHeldBy board l r.winner) ∧
    (∀ i ∈ r.line, board[i]? = some (some r.winner)) := by
  obtain ⟨pre, l, post, hls, hpre, hline, hheld⟩ := checkWinnerFrom_eq_some board WIN_LINES r h
  have hmem : l ∈ WIN_LINES := by rw [hls]; simp
  refine ⟨?_, ⟨pre, l, post, hls, hline, hpre, hheld⟩, ?_⟩
  · rw [hline]
    simp only [WIN_LINES, List.mem_cons, List.mem_singleton, List.not_mem_nil, or_false] at hmem
    rcases hmem with rfl | rfl | rfl | rfl | rfl | rfl | rfl | rfl <;> simp
  · intro i hi
    rw [hline] at hi
    simp only [List.mem_cons, List.mem_singleton, List.not_mem_nil, or_false] at hi
    rcases hi with rfl | rfl | rfl
    · exact hheld.1
    · exact hheld.2.1
    · exact hheld.2.2

/-- Witness for C2 on the board whose top row and left column both belong to X: the
row `[0, 1, 2]`, listed first, is the one reported. -/
theorem checkWinner_result_first_complete_line_witness :
    checkWinner [some Mark.X, some Mark.X, some Mark.X, some Mark.X, some Mark.O, some Mark.O,
        some Mark.X, some Mark.O, none] = some { winner := Mark.X, line := [0, 1, 2] } ∧
    ((∃ pre l post, WIN_LINES = pre ++ l :: post ∧ [0, 1, 2] = [l.1, l.2.1, l.2.2] ∧
      (∀ k ∈ pre, ¬ lineComplete [some Mark.X, some Mark.X, some Mark.X, some Mark.X,
          some Mark.O, some Mark.O, some Mark.X, some Mark.O, none] k) ∧
      lineHeldBy [some Mark.X, some Mark.X, some Mark.X, some Mark.X, some Mark.O, some Mark.O,
          some Mark.X, some Mark.O, none] l Mark.X)) :=
  ⟨by decide,
   (checkWinner_result_first_complete_line
      [some Mark.X, some Mark.X, some Mark.X, some Mark.X, some Mark.O, some Mark.O,
        some Mark.X, some Mark.O, none]
      { winner := Mark.X, line := [0, 1, 2] } (by decide)).2.1⟩

/-- C3, as stated, fails: on the full board `fullBoardWonByX` (top row held by X)
`isDraw` returns `true` although `checkWinner` returns a winner. -/
theorem isDraw_true_on_won_full_board :
    fullBoardWonByX.length = 9 ∧
    ¬ (isDraw fullBoardWonByX = true ↔
        ((∀ i, i < 9 → occupied fullBoardWonByX i) ∧ checkWinner fullBoardWonByX = none)) := by
  refine ⟨rfl, ?_⟩
  intro h
  have h1 : isDraw fullBoardWonByX = true := by decide
  have h2 : checkWinner fullBoardWonByX ≠ none := by decide
  exact h2 (h.1 h1).2

/-- C3, amended: for every board of 9 cells, `isDraw` returns `true` if and only if all
9 cells are occupied, whatever `checkWinner` returns; hence on the boards for which
`checkWinner` returns no winner (the only ones on which `handleMove` consults it),
`isDraw` is `true` if and only if all 9 cells are occupied and there is no winner. -/
theorem isDraw_iff_all_cells_occupied (board : Board) (hlen : board.length = 9) :
    (isDraw board = true ↔ ∀ i, i < 9 → occupied board i) ∧
    (checkWinner board = none →
      (isDraw board = true ↔ ((∀ i, i < 9 → occupied board i) ∧ checkWinner board = none))) := by
  have h := isDraw_eq_true_iff board
  rw [hlen] at h
  refine ⟨h, fun hw => ?_⟩
  rw [h]
  exact ⟨fun hf => ⟨hf, hw⟩, fun hf => hf.1⟩

/-- Witness for the amended C3 on a full board without a complete line. -/
theorem isDraw_iff_all_cells_occupied_witness :
    [some Mark.X, some Mark.O, some Mark.X, some Mark.X, some Mark.O, some Mark.O,
        some Mark.O, some Mark.X, some Mark.X].length = 9 ∧
    (isDraw [some Mark.X, some Mark.O, some Mark.X, some Mark.X, some Mark.O, some Mark.O,
        some Mark.O, some Mark.X, some Mark.X] = true ↔
      ∀ i, i < 9 → occupied [some Mark.X, some Mark.O, some Mark.X, some Mark.X, some Mark.O,
        some Mark.O, some Mark.O, some Mark.X, some Mark.X] i) :=
  ⟨rfl, (isDraw_iff_all_cells_occupied
    [some Mark.X, some Mark.O, some Mark.X, some Mark.X, some Mark.O, some Mark.O,
        some Mark.O, some Mark.X, some Mark.X] rfl).1⟩

/-! ## `handleMove` -/

theorem cellAt_set_self (board : Board) (i : Int) (c : Cell)
    (h : cellAt board i = some none) : cellAt (board.set i.toNat c) i = some c := by
  unfold cellAt at h ⊢
  by_cases h0 : 0 ≤ i
  · rw [if_pos h0] at h ⊢
    have hlt : i.toNat < board.length := by
      by_contra hge
      rw [List.getElem?_eq_none (Nat.le_of_not_lt hge)] at h
      exact absurd h (by simp)
    rw [List.getElem?_set_self hlt]
  · rw [if_neg h0] at h
    exact absurd h (by simp)

theorem cellAt_set_ne (board : Board) (i j : Int) (c : Cell) (h0 : 0 ≤ i) (hne : j ≠ i) :
    cellAt (board.set i.toNat c) j = cellAt board j := by
  unfold cellAt
  by_cases hj : 0 ≤ j
  · rw [if_pos hj, if_pos hj]
    apply List.getElem?_set_ne
    intro heq
    apply hne
    rw [← Int.toNat_of_nonneg hj, ← Int.toNat_of_nonneg h0, heq]
  · rw [if_neg hj, if_neg hj]

theorem nonneg_of_cellAt_eq_some (board : Board) (i : Int) (c : Cell)
    (h : cellAt board i = some c) : 0 ≤ i := by
  unfold cellAt at h
  by_contra h0
  rw [if_neg h0] at h
  exact absurd h (by simp)

theorem handleMove_noop (s : State) (i : Int)
    (h : s.gameOver = true ∨ cellAt s.board i ≠ some none) : handleMove s i = (s, []) := by
  unfold handleMove
  rcases h with h | h
  · rw [if_pos h]
  · by_cases hg : s.gameOver = true
    · rw [if_pos hg]
    · rw [if_neg hg, if_pos h]

theorem handleMove_board (s : State) (i : Int) (hgo : s.gameOver = false)
    (hempty : cellAt s.board i = some none) :
    (handleMove s i).1.board = s.board.set i.toNat (some s.currentPlayer) := by
  unfold handleMove
  simp only [hgo, hempty, Bool.false_eq_true, if_false, ne_eq, not_true_eq_false]
  split
  · rfl
  · split <;> rfl

theorem handleMove_selectedIndex (s : State) (i : Int) :
    (handleMove s i).1.selectedIndex = s.selectedIndex := by
  unfold handleMove
  split
  · rfl
  · split
    · rfl
    · simp only
      split
      · rfl
      · split <;> rfl

theorem handleMove_win (s : State) (i : Int) (hgo : s.gameOver = false)
    (hempty : cellAt s.board i = some none)
    (hw : checkWinner (s.board.set i.toNat (some s.currentPlayer)) ≠ none) :
    (handleMove s i).1.gameOver = true ∧ (handleMove s i).1.currentPlayer = s.currentPlayer := by
  obtain ⟨r, hr⟩ := Option.ne_none_iff_exists'.1 hw
  unfold handleMove
  simp only [hgo, hempty, Bool.false_eq_true, if_false, ne_eq, not_true_eq_false, hr, and_self]

theorem handleMove_draw (s : State) (i : Int) (hgo : s.gameOver = false)
    (hempty : cellAt s.board i = some none)
    (hw : checkWinner (s.board.set i.toNat (some s.currentPlayer)) = none)
    (hd : isDraw (s.board.set i.toNat (some s.currentPlayer)) = true) :
    (handleMove s i).1.gameOver = true ∧ (handleMove s i).1.currentPlayer = s.currentPlayer := by
  unfold handleMove
  simp only [hgo, hempty, Bool.false_eq_true, if_false, ne_eq, not_true_eq_false, hw, hd,
    if_true, and_self]

theorem handleMove_continue (s : State) (i : Int) (hgo : s.gameOver = false)
    (hempty : cellAt s.board i = some none)
    (hw : checkWinner (s.board.set i.toNat (some s.currentPlayer)) = none)
    (hd : isDraw (s.board.set i.toNat (some s.currentPlayer)) = false) :
    (handleMove s i).1.gameOver = false ∧
      (handleMove s i).1.currentPlayer = otherPlayer s.currentPlayer := by
  unfold handleMove
  simp only [hgo, hempty, Bool.false_eq_true, if_false, ne_eq, not_true_eq_false, hw, hd,
    and_self]

/-- C4: in a state with `gameOver = false`, for an index `i` in 0..8 whose cell is empty,
`handleMove(i)` writes `currentPlayer` into cell `i` and leaves every other cell, the
length of the board and `selectedIndex` unchanged; then, if the new board has a winner,
`gameOver` becomes `true` and `currentPlayer` is not flipped; otherwise, if every cell of
the new board is occupied, `gameOver` becomes `true` and `currentPlayer` is not flipped;
otherwise `gameOver` stays `false` and `currentPlayer` is flipped (X to O, O to X). -/
theorem handleMove_on_empty_cell (s : State) (i : Int) (hgo : s.gameOver = false)
    (hi : 0 ≤ i ∧ i ≤ 8) (hempty : cellAt s.board i = some none) :
    cellAt (handleMove s i).1.board i = some (some s.currentPlayer) ∧
    (∀ j : Int, j ≠ i → cellAt (handleMove s i).1.board j = cellAt s.board j) ∧
    (handleMove s i).1.board.length = s.board.length ∧
    (handleMove s i).1.selectedIndex = s.selectedIndex ∧
    (checkWinner (handleMove s i).1.board ≠ none →
      (handleMove s i).1.gameOver = true ∧
      (handleMove s i).1.currentPlayer = s.currentPlayer) ∧
    (checkWinner (handleMove s i).1.board = none →
      (∀ k, k < (handleMove s i).1.board.length → occupied (handleMove s i).1.board k) →
      (handleMove s i).1.gameOver = true ∧
      (handleMove s i).1.currentPlayer = s.currentPlayer) ∧
    (checkWinner (handleMove s i).1.board = none →
      ¬ (∀ k, k < (handleMove s i).1.board.length → occupied (handleMove s i).1.board k) →
      (handleMove s i).1.gameOver = false ∧
      (s.currentPlayer = Mark.X → (handleMove s i).1.currentPlayer = Mark.O) ∧
      (s.currentPlayer = Mark.O → (handleMove s i).1.currentPlayer = Mark.X)) := by
  have hb := handleMove_board s i hgo hempty
  rw [hb]
  refine ⟨cellAt_set_self _ _ _ hempty, fun j hj => cellAt_set_ne _ _ _ _ hi.1 hj,
    List.length_set .., handleMove_selectedIndex s i, ?_, ?_, ?_⟩
  · exact fun hw => handleMove_win s i hgo hempty hw
  · intro hw hfull
    exact handleMove_draw s i hgo hempty hw ((isDraw_eq_true_iff _).2 hfull)
  · intro hw hnot
    have hd : isDraw (s.board.set i.toNat (some s.currentPlayer)) = false := by
      rw [← Bool.not_eq_true, isDraw_eq_true_iff]
      exact hnot
    obtain ⟨h1, h2⟩ := handleMove_continue s i hgo hempty hw hd
    refine ⟨h1, fun hx => ?_, fun ho => ?_⟩
    · rw [h2, hx]; rfl
    · rw [h2, ho]; rfl

/-- Witness for C4: the first move of a game, at index 0. -/
theorem handleMove_on_empty_cell_witness :
    initialState.gameOver = false ∧ cellAt initialState.board 0 = some none ∧
    cellAt (handleMove initialState 0).1.board 0 = some (some initialState.currentPlayer) :=
  ⟨rfl, by decide,
    (handleMove_on_empty_cell initialState 0 rfl ⟨by decide, by decide⟩ (by decide)).1⟩

/-- C5: for every state and every index `i` (in 0..8 or not), if `gameOver` is `true`
or cell `i` is occupied, `handleMove(i)` returns at once: the state is unchanged and no
call is made on the page (so nothing can raise an error).  Consequently, from any state
`t` and for any index `j`, a second `handleMove(j)` right after a first `handleMove(j)`
changes nothing: the board (cell `j` included) and `currentPlayer` are those left by the
first call. -/
theorem handleMove_ignored_when_over_or_occupied (s : State) (i : Int)
    (h : s.gameOver = true ∨ ∃ m : Mark, cellAt s.board i = some (some m)) :
    handleMove s i = (s, []) ∧
    (∀ (t : State) (j : Int),
      handleMove (handleMove t j).1 j = ((handleMove t j).1, []) ∧
      cellAt (handleMove (handleMove t j).1 j).1.board j = cellAt (handleMove t j).1.board j ∧
      (handleMove (handleMove t j).1 j).1.currentPlayer = (handleMove t j).1.currentPlayer) := by
  constructor
  · apply handleMove_noop
    rcases h with h | ⟨m, hm⟩
    · exact Or.inl h
    · exact Or.inr (by rw [hm]; simp)
  · intro t j
    have key : handleMove (handleMove t j).1 j = ((handleMove t j).1, []) := by
      by_cases hn : t.gameOver = true ∨ cellAt t.board j ≠ some none
      · rw [handleMove_noop t j hn]
        exact handleMove_noop t j hn
      · push_neg at hn
        obtain ⟨hgo, hempty⟩ := hn
        have hgo' : t.gameOver = false := by simpa using hgo
        apply handleMove_noop
        right
        rw [handleMove_board t j hgo' hempty, cellAt_set_self _ _ _ hempty]
        simp
    rw [key]
    exact ⟨rfl, rfl, rfl⟩

/-- Witness for C5: after X has played index 0, `handleMove(0)` is ignored; and a
second `handleMove(4)` after a first one from the initial state changes nothing. -/
theorem handleMove_ignored_when_over_or_occupied_witness :
    (∃ m : Mark, cellAt (handleMove initialState 0).1.board 0 = some (some m)) ∧
    handleMove (handleMove initialState 0).1 0 = ((handleMove initialState 0).1, []) ∧
    handleMove (handleMove initialState 4).1 4 = ((handleMove initialState 4).1, []) :=
  ⟨⟨Mark.X, by decide⟩,
    (handleMove_ignored_when_over_or_occupied (handleMove initialState 0).1 0
      (Or.inr ⟨Mark.X, by decide⟩)).1,
    ((handleMove_ignored_when_over_or_occupied (handleMove initialState 0).1 0
      (Or.inr ⟨Mark.X, by decide⟩)).2 initialState 4).1⟩

theorem handleMove_keeps_mark (s : State) (i j : Int) (m : Mark)
    (h : cellAt s.board j = some (some m)) :
    cellAt (handleMove s i).1.board j = some (some m) := by
  by_cases hn : s.gameOver = true ∨ cellAt s.board i ≠ some none
  · rw [handleMove_noop s i hn]
    exact h
  · push_neg at hn
    obtain ⟨hgo, hempty⟩ := hn
    have hgo' : s.gameOver = false := by simpa using hgo
    have hne : j ≠ i := by
      rintro rfl
      rw [hempty] at h
      exact absurd h (by simp)
    rw [handleMove_board s i hgo' hempty,
      cellAt_set_ne _ _ _ _ (nonneg_of_cellAt_eq_some _ _ _ hempty) hne]
    exact h

theorem playMoves_append (s : State) (xs ys : List Int) :
    playMoves s (xs ++ ys) = playMoves (playMoves s xs) ys := by
  induction xs generalizing s with
  | nil => rfl
  | cons x rest ih => exact ih _

theorem playMoves_keeps_mark (s : State) (moves : List Int) (j : Int) (m : Mark)
    (h : cellAt s.board j = some (some m)) :
    cellAt (playMoves s moves).board j = some (some m) := by
  induction moves generalizing s with
  | nil => exact h
  | cons x rest ih => exact ih _ (handleMove_keeps_mark s x j m h)

theorem handleMove_placed_cases (s : State) (i : Int) (hgo : s.gameOver = false)
    (hempty : cellAt s.board i = some none) :
    (handleMove s i).1.gameOver = true ∨
    ((handleMove s i).1.gameOver = false ∧
      (handleMove s i).1.currentPlayer = otherPlayer s.currentPlayer) := by
  by_cases hw : checkWinner (s.board.set i.toNat (some s.currentPlayer)) = none
  · by_cases hd : isDraw (s.board.set i.toNat (some s.currentPlayer)) = true
    · exact Or.inl (handleMove_draw s i hgo hempty hw hd).1
    · exact Or.inr (handleMove_continue s i hgo hempty hw (by simpa using hd))
  · exact Or.inl (handleMove_win s i hgo hempty hw).1

theorem otherPlayer_turnOf (n : Nat) : otherPlayer (turnOf n) = turnOf (n + 1) := by
  unfold otherPlayer turnOf
  rcases Nat.mod_two_eq_zero_or_one n with h | h
  · have h1 : (n + 1) % 2 = 1 := by omega
    simp [h, h1]
  · have h1 : (n + 1) % 2 = 0 := by omega
    simp [h, h1]

theorem placedMarks_alternate_from (s : State) (n : Nat) (moves : List Int)
    (hinv : s.gameOver = false → s.currentPlayer = turnOf n) :
    (∀ k, k < (placedMarks s moves).length → (placedMarks s moves)[k]? = some (turnOf (n + k))) ∧
    ((playMoves s moves).gameOver = false →
      (playMoves s moves).currentPlayer = turnOf (n + (placedMarks s moves).length)) := by
  induction moves generalizing s n with
  | nil =>
    refine ⟨fun k hk => absurd hk (by simp [placedMarks]), ?_⟩
    simpa [placedMarks, playMoves] using hinv
  | cons i rest ih =>
    by_cases hg : s.gameOver = false ∧ cellAt s.board i = some none
    · obtain ⟨hgo, hempty⟩ := hg
      have hnext : (handleMove s i).1.gameOver = false →
          (handleMove s i).1.currentPlayer = turnOf (n + 1) := by
        intro hgo2
        rcases handleMove_placed_cases s i hgo hempty with h | ⟨_, h⟩
        · rw [h] at hgo2
          exact absurd hgo2 (by simp)
        · rw [h, hinv hgo, otherPlayer_turnOf]
      obtain ⟨ih1, ih2⟩ := ih (handleMove s i).1 (n + 1) hnext
      have hpm : placedMarks s (i :: rest) =
          s.currentPlayer :: placedMarks (handleMove s i).1 rest := by
        simp only [placedMarks, hgo, hempty, and_self, if_true]
      rw [hpm]
      constructor
      · intro k hk
        cases k with
        | zero => simp [hinv hgo]
        | succ k =>
          simp only [List.length_cons, Nat.succ_lt_succ_iff] at hk
          rw [List.getElem?_cons_succ, ih1 k hk]
          congr 2
          omega
      · intro hfin
        change (playMoves (handleMove s i).1 rest).currentPlayer = _
        rw [ih2 hfin, List.length_cons]
        congr 1
        omega
    · have hnoop : handleMove s i = (s, []) := by
        apply handleMove_noop
        by_cases hgo : s.gameOver = true
        · exact Or.inl hgo
        · exact Or.inr (fun he => hg ⟨by simpa using hgo, he⟩)
      have hpm : placedMarks s (i :: rest) = placedMarks s rest := by
        simp only [placedMarks, if_neg hg, hnoop]
      have hpl : playMoves s (i :: rest) = playMoves s rest := by
        simp only [playMoves, hnoop]
      rw [hpm, hpl]
      exact ih s n hinv

theorem countP_set_empty (board : Board) (i : Nat) (m : Mark) (h : board[i]? = some none) :
    (board.set i (some m)).countP (fun c => c.isSome) = board.countP (fun c => c.isSome) + 1 := by
  induction board generalizing i with
  | nil => simp at h
  | cons c rest ih =>
    cases i with
    | zero =>
      simp only [List.getElem?_cons_zero, Option.some.injEq] at h
      subst h
      simp [List.countP_cons]
    | succ i =>
      simp only [List.getElem?_cons_succ] at h
      simp only [List.set_cons_succ, List.countP_cons, ih i h]
      omega

theorem playMoves_count_marks (s : State) (moves : List Int) :
    (playMoves s moves).board.countP (fun c => c.isSome) =
      s.board.countP (fun c => c.isSome) + (placedMarks s moves).length := by
  induction moves generalizing s with
  | nil => simp [playMoves, placedMarks]
  | cons i rest ih =>
    by_cases hg : s.gameOver = false ∧ cellAt s.board i = some none
    · obtain ⟨hgo, hempty⟩ := hg
      have h0 := nonneg_of_cellAt_eq_some _ _ _ hempty
      have hcell : s.board[i.toNat]? = some none := by
        simpa only [cellAt, if_pos h0] using hempty
      simp only [playMoves, placedMarks, hgo, hempty, and_self, if_true, List.length_cons]
      rw [ih, handleMove_board s i hgo hempty, countP_set_empty _ _ _ hcell]
      omega
    · have hnoop : handleMove s i = (s, []) := by
        apply handleMove_noop
        by_cases hgo : s.gameOver = true
        · exact Or.inl hgo
        · exact Or.inr (fun he => hg ⟨by simpa using hgo, he⟩)
      simp only [playMoves, placedMarks, if_neg hg, hnoop]
      exact ih s

/-! ## Sequences of moves -/

/-- C6: along any sequence of `handleMove` calls from the initial state with no reset in
between (indices in 0..8 or not), a cell that holds a mark after some prefix `pre` of the
calls holds exactly that mark after every longer sequence `pre ++ post`; and whenever the
call `handleMove(i)` made after `pre` places a mark (game not over, cell `i` empty), cell
`i` holds, after that call and after all the calls `post` that follow, the mark of the
player whose turn it was when `i` was played. -/
theorem marks_persist_and_belong_to_mover (pre post : List Int) (i : Int) :
    (∀ (j : Int) (m : Mark), cellAt (playMoves initialState pre).board j = some (some m) →
      cellAt (playMoves initialState (pre ++ post)).board j = some (some m)) ∧
    ((playMoves initialState pre).gameOver = false →
      cellAt (playMoves initialState pre).board i = some none →
      cellAt (playMoves initialState (pre ++ i :: post)).board i =
        some (some (playMoves initialState pre).currentPlayer)) := by
  constructor
  · intro j m h
    rw [playMoves_append]
    exact playMoves_keeps_mark _ post j m h
  · intro hgo hempty
    rw [playMoves_append]
    change cellAt (playMoves (handleMove (playMoves initialState pre) i).1 post).board i = _
    apply playMoves_keeps_mark
    rw [handleMove_board _ i hgo hempty]
    exact cellAt_set_self _ _ _ hempty

/-- Witness for C6: after X has played 0, O plays 1; the later calls at 0, 1 and 2 leave
X in cell 0 and O in cell 1. -/
theorem marks_persist_and_belong_to_mover_witness :
    cellAt (playMoves initialState [0]).board 0 = some (some Mark.X) ∧
    cellAt (playMoves initialState ([0] ++ [0, 1, 2])).board 0 = some (some Mark.X) ∧
    (playMoves initialState [0]).gameOver = false ∧
    cellAt (playMoves initialState [0]).board 1 = some none ∧
    (playMoves initialState [0]).currentPlayer = Mark.O ∧
    cellAt (playMoves initialState ([0] ++ 1 :: [0, 1, 2])).board 1 =
      some (some (playMoves initialState [0]).currentPlayer) :=
  ⟨by decide,
   (marks_persist_and_belong_to_mover [0] [0, 1, 2] 1).1 0 Mark.X (by decide),
   by decide, by decide, by decide,
   (marks_persist_and_belong_to_mover [0] [0, 1, 2] 1).2 (by decide) (by decide)⟩

/-- C7: from the initial state, which is also the state after `resetGame`, for every
sequence of `handleMove` calls the marks actually placed, in order, are X, O, X, O, ...:
the mark placed at position `k` (from 0) is X for even `k` and O for odd `k`, so no two
consecutive placed marks are equal; the number `k` of placed marks is the number of
non-empty cells; and if the game is not over after the calls, `currentPlayer` is X when
`k` is even and O when `k` is odd. -/
theorem placed_marks_alternate (s0 : State) (moves : List Int) :
    (resetGame s0).1 = initialState ∧
    (∀ k, k < (placedMarks initialState moves).length →
      (placedMarks initialState moves)[k]? = some (if k % 2 = 0 then Mark.X else Mark.O)) ∧
    (∀ k, k + 1 < (placedMarks initialState moves).length →
      (placedMarks initialState moves)[k]? ≠ (placedMarks initialState moves)[k + 1]?) ∧
    (playMoves initialState moves).board.countP (fun c => c.isSome) =
      (placedMarks initialState moves).length ∧
    ((playMoves initialState moves).gameOver = false →
      (playMoves initialState moves).currentPlayer =
        if (placedMarks initialState moves).length % 2 = 0 then Mark.X else Mark.O) := by
  obtain ⟨h1, h2⟩ := placedMarks_alternate_from initialState 0 moves (fun _ => rfl)
  simp only [Nat.zero_add] at h1 h2
  refine ⟨rfl, h1, ?_, ?_, h2⟩
  · intro k hk
    rw [h1 k (by omega), h1 (k + 1) hk]
    unfold turnOf
    rcases Nat.mod_two_eq_zero_or_one k with h | h
    · have h' : (k + 1) % 2 = 1 := by omega
      simp [h, h']
    · have h' : (k + 1) % 2 = 0 := by omega
      simp [h, h']
  · rw [playMoves_count_marks]
    simp [initialState]

/-- Witness for C7: after the calls at 0, 0, 4, 4, 8 three marks X, O, X have been placed
and the game is not over, so it is O's turn. -/
theorem placed_marks_alternate_witness :
    placedMarks initialState [0, 0, 4, 4, 8] = [Mark.X, Mark.O, Mark.X] ∧
    (playMoves initialState [0, 0, 4, 4, 8]).gameOver = false ∧
    (playMoves initialState [0, 0, 4, 4, 8]).currentPlayer =
      if (placedMarks initialState [0, 0, 4, 4, 8]).length % 2 = 0 then Mark.X else Mark.O :=
  ⟨by decide, by decide,
   (placed_marks_alternate initialState [0, 0, 4, 4, 8]).2.2.2.2 (by decide)⟩

/-! ## Selection and reset -/

theorem moveSelection_selectedIndex (s : State) (dx dy : Int) :
    (moveSelection s dx dy).1.selectedIndex =
      max 0 (min 2 (Int.fdiv s.selectedIndex 3 + dy)) * 3 +
        max 0 (min 2 (Int.tmod s.selectedIndex 3 + dx)) := rfl

theorem max_min_eq_clamp (v : Int) : max 0 (min 2 v) = clamp v 0 2 := by
  unfold clamp
  split
  · omega
  · split <;> omega

theorem moveSelection_up_fixed (s : State) (h0 : 0 ≤ s.selectedIndex) (h2 : s.selectedIndex ≤ 2) :
    (moveSelection s 0 (-1)).1 = s := by
  have hsel : (moveSelection s 0 (-1)).1.selectedIndex = s.selectedIndex := by
    rw [moveSelection_selectedIndex, Int.fdiv_eq_ediv _ (by decide),
      Int.tmod_eq_emod h0 (by decide)]
    omega
  have hrest : (moveSelection s 0 (-1)).1 =
      { s with selectedIndex := (moveSelection s 0 (-1)).1.selectedIndex } := rfl
  rw [hrest, hsel]

/-- C8: for every `selectedIndex` in 0..8 and all integers `dx`, `dy`,
`moveSelection(dx, dy)` sets `selectedIndex` to
`clamp(floor(s/3) + dy, 0, 2) * 3 + clamp(s mod 3 + dx, 0, 2)` (on `Int`, `/` by 3 is
the floor of the quotient and `%` the remainder in 0..2), which is again in 0..8,
and leaves `board`, `currentPlayer` and `gameOver` unchanged; there is no wrap-around:
from a selection in row 0, `moveSelection(0, -1)` applied any number of times leaves the
state, hence the selection, unchanged. -/
theorem moveSelection_clamps (s : State) (dx dy : Int)
    (hs : 0 ≤ s.selectedIndex ∧ s.selectedIndex ≤ 8) :
    (moveSelection s dx dy).1.selectedIndex =
      clamp (s.selectedIndex / 3 + dy) 0 2 * 3 + clamp (s.selectedIndex % 3 + dx) 0 2 ∧
    0 ≤ (moveSelection s dx dy).1.selectedIndex ∧
    (moveSelection s dx dy).1.selectedIndex ≤ 8 ∧
    (moveSelection s dx dy).1.board = s.board ∧
    (moveSelection s dx dy).1.currentPlayer = s.currentPlayer ∧
    (moveSelection s dx dy).1.gameOver = s.gameOver ∧
    (s.selectedIndex / 3 = 0 →
      ∀ n : Nat, (fun t => (moveSelection t 0 (-1)).1)^[n] s = s) := by
  have hsel := moveSelection_selectedIndex s dx dy
  rw [Int.fdiv_eq_ediv _ (by decide), Int.tmod_eq_emod hs.1 (by decide)] at hsel
  refine ⟨?_, ?_, ?_, rfl, rfl, rfl, ?_⟩
  · rw [hsel, max_min_eq_clamp, max_min_eq_clamp]
  · rw [hsel]; omega
  · rw [hsel]; omega
  · intro hrow n
    apply Function.iterate_fixed
    exact moveSelection_up_fixed s hs.1 (by omega)

/-- Witness for C8: from the centre cell 4, `moveSelection(5, -1)` selects cell 2 (row
clamped to 0, column clamped to 2); from cell 1, three upward moves change nothing. -/
theorem moveSelection_clamps_witness :
    (moveSelection { initialState with selectedIndex := 4 } 5 (-1)).1.selectedIndex = 2 ∧
    (fun t => (moveSelection t 0 (-1)).1)^[3] { initialState with selectedIndex := 1 } =
      { initialState with selectedIndex := 1 } :=
  ⟨((moveSelection_clamps { initialState with selectedIndex := 4 } 5 (-1)
      ⟨by decide, by decide⟩).1).trans (by decide),
   (moveSelection_clamps { initialState with selectedIndex := 1 } 0 0
      ⟨by decide, by decide⟩).2.2.2.2.2.2 (by decide) 3⟩

/-- C9: from every prior state, `resetGame` produces the state with all 9 cells empty,
`currentPlayer = X`, `gameOver = false` and `selectedIndex = 0`, which is the startup
state; it has no precondition. -/
theorem resetGame_restores_initial_state (s : State) :
    (resetGame s).1 =
      { board := [none, none, none, none, none, none, none, none, none],
        currentPlayer := Mark.X, gameOver := false, selectedIndex := 0 } ∧
    (resetGame s).1 = initialState := by
  constructor <;> rfl

/-- C10: from the initial state, `handleMove` at 0, 1, 3, 4, 6 places X, O, X, O, X at
those indices (every call places a mark, the game being in progress before the last
one) and ends with the game over and won by X: `gameOver = true` and `checkWinner` on the
final board returns winner X with line `[0, 3, 6]`. -/
theorem left_column_win_scenario :
    placedMarks initialState [0, 1, 3, 4, 6] = [Mark.X, Mark.O, Mark.X, Mark.O, Mark.X] ∧
    (playMoves initialState [0, 1, 3, 4]).gameOver = false ∧
    (playMoves initialState [0, 1, 3, 4, 6]).board =
      [some Mark.X, some Mark.O, none, some Mark.X, some Mark.O, none, some Mark.X, none, none] ∧
    (playMoves initialState [0, 1, 3, 4, 6]).gameOver = true ∧
    checkWinner (playMoves initialState [0, 1, 3, 4, 6]).board =
      some { winner := Mark.X, line := [0, 3, 6] } := by
  decide

/-- C11: from the initial state, `handleMove` at 0, 1, 2, 4, 3, 5, 7, 6, 8 places the
marks X, O, X, O, X, O, X, O, X; after each of the first eight calls the game is still in
progress and `checkWinner` returns `null`; after the call at index 8 the game is over as
a draw: `gameOver = true`, every cell occupied, `checkWinner` returns `null`, and the
last call announces the draw. -/
theorem full_board_draw_scenario :
    placedMarks initialState [0, 1, 2, 4, 3, 5, 7, 6, 8] =
      [Mark.X, Mark.O, Mark.X, Mark.O, Mark.X, Mark.O, Mark.X, Mark.O, Mark.X] ∧
    (∀ n, n < 9 →
      (playMoves initialState ([0, 1, 2, 4, 3, 5, 7, 6, 8].take n)).gameOver = false ∧
      checkWinner (playMoves initialState ([0, 1, 2, 4, 3, 5, 7, 6, 8].take n)).board = none) ∧
    (playMoves initialState [0, 1, 2, 4, 3, 5, 7, 6, 8]).board =
      [some Mark.X, some Mark.O, some Mark.X, some Mark.X, some Mark.O, some Mark.O,
        some Mark.O, some Mark.X, some Mark.X] ∧
    (playMoves initialState [0, 1, 2, 4, 3, 5, 7, 6, 8]).gameOver = true ∧
    (∀ k, k < 9 → occupied (playMoves initialState [0, 1, 2, 4, 3, 5, 7, 6, 8]).board k) ∧
    checkWinner (playMoves initialState [0, 1, 2, 4, 3, 5, 7, 6, 8]).board = none ∧
    (handleMove (playMoves initialState [0, 1, 2, 4, 3, 5, 7, 6]) 8).2.head? =
      some (Effect.setStatus "🤝 Draw!" "draw") := by
  decide

/-! ## Listeners -/

theorem keydown_ignored (s : State) (ae : Option Element) (key : String)
    (h : s.gameOver = true ∨ isTypingInField ae = true ∨ ¬ key ∈ gameKeys) :
    keydown s ae key = (s, []) := by
  unfold keydown
  by_cases hg : s.gameOver = true
  · rw [if_pos hg]
  · rw [if_neg hg]
    by_cases ht : isTypingInField ae = true
    · rw [if_pos ht]
    · rw [if_neg ht]
      rcases h with h | h | h
      · exact absurd h hg
      · exact absurd h ht
      · rw [if_pos h]

theorem keydown_handled (s : State) (ae : Option Element) (key : String)
    (hg : s.gameOver = false) (ht : isTypingInField ae = false) (hk : key ∈ gameKeys) :
    keydown s ae key =
      ((if key = "ArrowUp" then moveSelection s 0 (-1)
        else if key = "ArrowDown" then moveSelection s 0 1
        else if key = "ArrowLeft" then moveSelection s (-1) 0
        else if key = "ArrowRight" then moveSelection s 1 0
        else if key = "Enter" ∨ key = " " then handleMove s s.selectedIndex
        else (s, [])).1,
       Effect.preventDefault ::
        (if key = "ArrowUp" then moveSelection s 0 (-1)
        else if key = "ArrowDown" then moveSelection s 0 1
        else if key = "ArrowLeft" then moveSelection s (-1) 0
        else if key = "ArrowRight" then moveSelection s 1 0
        else if key = "Enter" ∨ key = " " then handleMove s s.selectedIndex
        else (s, [])).2) := by
  unfold keydown
  simp only [hg, ht, Bool.false_eq_true, if_false, hk, not_true_eq_false]

/-- C12: the keydown listener.  When `gameOver` is `true` or `isTypingInField()` holds
(focus on an `input`, a `textarea` or an editable element), every key leaves the state
unchanged and no call is made.  Otherwise ArrowLeft, ArrowRight, ArrowUp, ArrowDown do
exactly what `moveSelection(-1,0)`, `moveSelection(1,0)`, `moveSelection(0,-1)`,
`moveSelection(0,1)` do, Enter and Space do exactly what `handleMove(selectedIndex)`
does (each after `e.preventDefault()`), and every other key leaves the state unchanged. -/
theorem keydown_dispatch (s : State) (ae : Option Element) (key : String) :
    (s.gameOver = true ∨ isTypingInField ae = true → keydown s ae key = (s, [])) ∧
    (s.gameOver = false → isTypingInField ae = false →
      keydown s ae "ArrowLeft" =
        ((moveSelection s (-1) 0).1, Effect.preventDefault :: (moveSelection s (-1) 0).2) ∧
      keydown s ae "ArrowRight" =
        ((moveSelection s 1 0).1, Effect.preventDefault :: (moveSelection s 1 0).2) ∧
      keydown s ae "ArrowUp" =
        ((moveSelection s 0 (-1)).1, Effect.preventDefault :: (moveSelection s 0 (-1)).2) ∧
      keydown s ae "ArrowDown" =
        ((moveSelection s 0 1).1, Effect.preventDefault :: (moveSelection s 0 1).2) ∧
      keydown s ae "Enter" =
        ((handleMove s s.selectedIndex).1,
          Effect.preventDefault :: (handleMove s s.selectedIndex).2) ∧
      keydown s ae " " =
        ((handleMove s s.selectedIndex).1,
          Effect.preventDefault :: (handleMove s s.selectedIndex).2) ∧
      (key ≠ "ArrowLeft" → key ≠ "ArrowRight" → key ≠ "ArrowUp" → key ≠ "ArrowDown" →
        key ≠ "Enter" → key ≠ " " → keydown s ae key = (s, []))) := by
  constructor
  · intro h
    apply keydown_ignored
    rcases h with h | h
    · exact Or.inl h
    · exact Or.inr (Or.inl h)
  · intro hg ht
    refine ⟨?_, ?_, ?_, ?_, ?_, ?_, ?_⟩
    · rw [keydown_handled s ae _ hg ht (by decide)]; simp
    · rw [keydown_handled s ae _ hg ht (by decide)]; simp
    · rw [keydown_handled s ae _ hg ht (by decide)]; simp
    · rw [keydown_handled s ae _ hg ht (by decide)]; simp
    · rw [keydown_handled s ae _ hg ht (by decide)]; simp
    · rw [keydown_handled s ae _ hg ht (by decide)]; simp
    · intro h1 h2 h3 h4 h5 h6
      apply keydown_ignored
      right; right
      simp [gameKeys, h1, h2, h3, h4, h5, h6]

/-- Witness for C12: in the initial state with no element focused, ArrowRight selects
cell 1, Enter plays the selected cell 0, the key `a` does nothing; with an `INPUT`
focused ArrowRight does nothing. -/
theorem keydown_dispatch_witness :
    (keydown initialState none "ArrowRight").1.selectedIndex = 1 ∧
    cellAt (keydown initialState none "Enter").1.board 0 = some (some Mark.X) ∧
    keydown initialState none "a" = (initialState, []) ∧
    isTypingInField (some { tagName := some "INPUT", isContentEditable := false }) = true ∧
    keydown initialState (some { tagName := some "INPUT", isContentEditable := false })
      "ArrowRight" = (initialState, []) :=
  ⟨by rw [((keydown_dispatch initialState none "a").2 rfl rfl).2.1]; decide,
   by rw [((keydown_dispatch initialState none "a").2 rfl rfl).2.2.2.2.1]; decide,
   ((keydown_dispatch initialState none "a").2 rfl rfl).2.2.2.2.2.2
     (by decide) (by decide) (by decide) (by decide) (by decide) (by decide),
   by decide,
   (keydown_dispatch initialState (some { tagName := some "INPUT", isContentEditable := false })
     "ArrowRight").1 (Or.inr (by decide))⟩

theorem keydown_state_cases (s : State) (ae : Option Element) (key : String) :
    (keydown s ae key).1 = s ∨
    (∃ dx dy, (keydown s ae key).1 = (moveSelection s dx dy).1) ∨
    (keydown s ae key).1 = (handleMove s s.selectedIndex).1 := by
  by_cases h : s.gameOver = true ∨ isTypingInField ae = true ∨ ¬ key ∈ gameKeys
  · left
    rw [keydown_ignored s ae key h]
  · push_neg at h
    obtain ⟨hg, ht, hk⟩ := h
    rw [keydown_handled s ae key (by simpa using hg) (by simpa using ht) hk]
    simp only
    split
    · exact Or.inr (Or.inl ⟨_, _, rfl⟩)
    · split
      · exact Or.inr (Or.inl ⟨_, _, rfl⟩)
      · split
        · exact Or.inr (Or.inl ⟨_, _, rfl⟩)
        · split
          · exact Or.inr (Or.inl ⟨_, _, rfl⟩)
          · split
            · exact Or.inr (Or.inr rfl)
            · exact Or.inl rfl

theorem moveSelection_in_range (s : State) (dx dy : Int) :
    0 ≤ (moveSelection s dx dy).1.selectedIndex ∧ (moveSelection s dx dy).1.selectedIndex ≤ 8 := by
  rw [moveSelection_selectedIndex]
  generalize Int.fdiv s.selectedIndex 3 = r
  generalize Int.tmod s.selectedIndex 3 = c
  omega

theorem step_selectedIndex_in_range (s : State) (e : Event) (he : e.onBoard)
    (hs : 0 ≤ s.selectedIndex ∧ s.selectedIndex ≤ 8) :
    0 ≤ (step s e).selectedIndex ∧ (step s e).selectedIndex ≤ 8 := by
  cases e with
  | handleMove index =>
    change 0 ≤ (handleMove s index).1.selectedIndex ∧ (handleMove s index).1.selectedIndex ≤ 8
    rw [handleMove_selectedIndex]
    exact hs
  | moveSelection dx dy => exact moveSelection_in_range s dx dy
  | selectFromMouse index => exact he
  | resetGame =>
    change (0 : Int) ≤ 0 ∧ (0 : Int) ≤ 8
    exact ⟨by decide, by decide⟩
  | click cell =>
    cases cell with
    | none => exact hs
    | some index =>
      change 0 ≤ (handleMove (selectFromMouse s index).1 index).1.selectedIndex ∧
        (handleMove (selectFromMouse s index).1 index).1.selectedIndex ≤ 8
      rw [handleMove_selectedIndex]
      exact he
  | keydown ae key =>
    change 0 ≤ (keydown s ae key).1.selectedIndex ∧ (keydown s ae key).1.selectedIndex ≤ 8
    rcases keydown_state_cases s ae key with h | ⟨dx, dy, h⟩ | h
    · rw [h]; exact hs
    · rw [h]; exact moveSelection_in_range s dx dy
    · rw [h, handleMove_selectedIndex]; exact hs

theorem run_selectedIndex_in_range (s : State) (evs : List Event)
    (h : ∀ e ∈ evs, e.onBoard) (hs : 0 ≤ s.selectedIndex ∧ s.selectedIndex ≤ 8) :
    0 ≤ (run s evs).selectedIndex ∧ (run s evs).selectedIndex ≤ 8 := by
  induction evs generalizing s with
  | nil => exact hs
  | cons e rest ih =>
    exact ih (step s e) (fun e' he' => h e' (List.mem_cons_of_mem _ he'))
      (step_selectedIndex_in_range s e (h e (List.mem_cons_self _ _)) hs)

/-- C13: in every state reached from the initial state by clicks on cells 0..8 (which
set the selection to the clicked index and then call `handleMove`), key presses,
`moveSelection` and `handleMove` calls with any integers and resets, `selectedIndex` is
an integer between 0 and 8; nothing ties it to the occupancy of the selected cell. -/
theorem selectedIndex_stays_on_board (evs : List Event) (h : ∀ e ∈ evs, e.onBoard) :
    0 ≤ (run initialState evs).selectedIndex ∧ (run initialState evs).selectedIndex ≤ 8 :=
  run_selectedIndex_in_range initialState evs h ⟨by decide, by decide⟩

/-- Witness for C13: after a click on cell 8, two ArrowRight presses and a
`moveSelection(7, 7)` the selection is still cell 8, which is occupied; after one more
ArrowLeft press it is cell 7, which is empty. -/
theorem selectedIndex_stays_on_board_witness :
    (run initialState [Event.click (some 8), Event.keydown none "ArrowRight",
      Event.keydown none "ArrowRight", Event.moveSelection 7 7]).selectedIndex = 8 ∧
    occupied (run initialState [Event.click (some 8), Event.keydown none "ArrowRight",
      Event.keydown none "ArrowRight", Event.moveSelection 7 7]).board 8 ∧
    (run initialState [Event.click (some 8), Event.keydown none "ArrowRight",
      Event.keydown none "ArrowRight", Event.moveSelection 7 7,
      Event.keydown none "ArrowLeft"]).selectedIndex = 7 ∧
    ¬ occupied (run initialState [Event.click (some 8), Event.keydown none "ArrowRight",
      Event.keydown none "ArrowRight", Event.moveSelection 7 7,
      Event.keydown none "ArrowLeft"]).board 7 ∧
    (0 ≤ (run initialState [Event.click (some 8), Event.keydown none "ArrowRight",
      Event.keydown none "ArrowRight", Event.moveSelection 7 7]).selectedIndex ∧
     (run initialState [Event.click (some 8), Event.keydown none "ArrowRight",
      Event.keydown none "ArrowRight", Event.moveSelection 7 7]).selectedIndex ≤ 8) :=
  ⟨by decide, by decide, by decide, by decide,
   selectedIndex_stays_on_board [Event.click (some 8), Event.keydown none "ArrowRight",
      Event.keydown none "ArrowRight", Event.moveSelection 7 7] (by decide)⟩

/-! ## What `handleMove` returns and announces -/

/-- C14, as stated, fails: the first move of a game, `handleMove(0)` in the initial
state, places X and leaves the game in progress, yet the call returns `undefined`, not
that status. -/
theorem handleMove_returns_no_status :
    (0 : Int) ≤ 0 ∧ (0 : Int) ≤ 8 ∧
    statusOf (handleMove initialState 0).1 = Status.inProgress ∧
    handleMoveReturn initialState 0 ≠ some (statusOf (handleMove initialState 0).1) := by
  decide

/-- C14, amended: for every state and every index, `handleMove` returns `undefined` to
its caller on every path; the resulting status is not returned. -/
theorem handleMove_returns_undefined (s : State) (i : Int) :
    handleMoveReturn s i = none := by
  unfold handleMoveReturn
  split
  · rfl
  · split
    · rfl
    · split
      · rfl
      · split <;> rfl

theorem statusShown_render_of_gameOver (t : State) (h : t.gameOver = true) :
    statusShown (render t) = none := by
  simp [render, h, statusShown]

theorem statusShown_addWin_append (line : List Nat) (rest : List Effect)
    (h : statusShown rest = none) : statusShown (line.map Effect.addWin ++ rest) = none := by
  induction line with
  | nil => simpa using h
  | cons k more ih => simp [statusShown, ih]

theorem statusShown_setStatus_cons (text type : String) (rest : List Effect)
    (h : statusShown rest = none) :
    statusShown (Effect.setStatus text type :: rest) = some (text, type) := by
  simp [statusShown, h]

theorem statusShown_render_of_not_gameOver (t : State) (h : t.gameOver = false) :
    statusShown (render t) = some ("Turn: " ++ t.currentPlayer.toString, "info") := by
  simp [render, h, statusShown]

/-- C15: after a `handleMove` call that places a mark (game not over, cell empty), the
status shown is `('🏆 P wins!', win)` when the new board has a winner `P`, whether or not
the board is full, the winner being checked first; `('🤝 Draw!', draw)` when there is no
winner and every cell is occupied; and `('Turn: P', info)` with `P` the new
`currentPlayer` otherwise.  The `render` of a finished game sets no status, so the one
that follows a win or a draw does not overwrite it.  After `resetGame` the status is
`('Turn: X', info)`. -/
theorem status_shown_after_move (s : State) (i : Int) (hgo : s.gameOver = false)
    (hempty : cellAt s.board i = some none) :
    (∀ r, checkWinner (handleMove s i).1.board = some r →
      statusShown (handleMove s i).2 = some ("🏆 " ++ r.winner.toString ++ " wins!", "win")) ∧
    (checkWinner (handleMove s i).1.board = none →
      (∀ k, k < (handleMove s i).1.board.length → occupied (handleMove s i).1.board k) →
      statusShown (handleMove s i).2 = some ("🤝 Draw!", "draw")) ∧
    (checkWinner (handleMove s i).1.board = none →
      ¬ (∀ k, k < (handleMove s i).1.board.length → occupied (handleMove s i).1.board k) →
      statusShown (handleMove s i).2 =
        some ("Turn: " ++ (handleMove s i).1.currentPlayer.toString, "info")) ∧
    (∀ t : State, t.gameOver = true → statusShown (render t) = none) ∧
    (∀ t : State, statusShown (resetGame t).2 = some ("Turn: X", "info")) ∧
    "🏆 " ++ Mark.X.toString ++ " wins!" = "🏆 X wins!" ∧
    "🏆 " ++ Mark.O.toString ++ " wins!" = "🏆 O wins!" ∧
    "Turn: " ++ Mark.X.toString = "Turn: X" ∧ "Turn: " ++ Mark.O.toString = "Turn: O" := by
  have hb := handleMove_board s i hgo hempty
  rw [hb]
  refine ⟨?_, ?_, ?_, statusShown_render_of_gameOver, ?_, by decide, by decide, by decide,
    by decide⟩
  · intro r hr
    unfold handleMove
    simp only [hgo, hempty, Bool.false_eq_true, if_false, ne_eq, not_true_eq_false, hr]
    apply statusShown_setStatus_cons
    apply statusShown_addWin_append
    exact statusShown_render_of_gameOver _ rfl
  · intro hw hfull
    have hd := (isDraw_eq_true_iff _).2 hfull
    unfold handleMove
    simp only [hgo, hempty, Bool.false_eq_true, if_false, ne_eq, not_true_eq_false, hw, hd,
      if_true]
    apply statusShown_setStatus_cons
    exact statusShown_render_of_gameOver _ rfl
  · intro hw hnot
    have hd : isDraw (s.board.set i.toNat (some s.currentPlayer)) = false := by
      rw [← Bool.not_eq_true, isDraw_eq_true_iff]
      exact hnot
    unfold handleMove
    simp only [hgo, hempty, Bool.false_eq_true, if_false, ne_eq, not_true_eq_false, hw, hd]
    exact statusShown_render_of_not_gameOver _ rfl
  · intro t
    unfold resetGame
    simp [statusShown, render, Mark.toString]

/-- Witness for C15: in the game 0, 3, 1, 4, 5, 7, 6, 8 the ninth move, X at 2, fills
the last empty cell and completes the top row; the status shown is the win, not the
draw. -/
theorem status_shown_after_move_witness :
    (playMoves initialState [0, 3, 1, 4, 5, 7, 6, 8]).gameOver = false ∧
    cellAt (playMoves initialState [0, 3, 1, 4, 5, 7, 6, 8]).board 2 = some none ∧
    (handleMove (playMoves initialState [0, 3, 1, 4, 5, 7, 6, 8]) 2).1.board =
      fullBoardWonByX ∧
    statusShown (handleMove (playMoves initialState [0, 3, 1, 4, 5, 7, 6, 8]) 2).2 =
      some ("🏆 X wins!", "win") :=
  ⟨by decide, by decide, by decide,
   (status_shown_after_move (playMoves initialState [0, 3, 1, 4, 5, 7, 6, 8]) 2
      (by decide) (by decide)).1 { winner := Mark.X, line := [0, 1, 2] } (by decide)⟩

/-! ## Lines through the cell just played -/

theorem checkWinnerFrom_cons_of_not_complete (board : Board) (l : Nat × Nat × Nat)
    (rest : List (Nat × Nat × Nat)) (h : ¬ lineComplete board l) :
    checkWinnerFrom board (l :: rest) = checkWinnerFrom board rest := by
  obtain ⟨a, b, c⟩ := l
  simp only [checkWinnerFrom]
  split
  · next m hm =>
    by_cases hb : board[b]? = some (some m) ∧ board[c]? = some (some m)
    · exact absurd ⟨m, hm, hb.1, hb.2⟩ h
    · rw [if_neg hb]
  · rfl

theorem checkWinnerFrom_cons_congr (board : Board) (l : Nat × Nat × Nat)
    (xs ys : List (Nat × Nat × Nat)) (h : checkWinnerFrom board xs = checkWinnerFrom board ys) :
    checkWinnerFrom board (l :: xs) = checkWinnerFrom board (l :: ys) := by
  obtain ⟨a, b, c⟩ := l
  simp only [checkWinnerFrom, h]

theorem checkWinnerFrom_filter (board : Board) (p : Nat × Nat × Nat → Bool)
    (ls : List (Nat × Nat × Nat)) (h : ∀ l ∈ ls, p l = false → ¬ lineComplete board l) :
    checkWinnerFrom board (ls.filter p) = checkWinnerFrom board ls := by
  induction ls with
  | nil => rfl
  | cons l rest ih =>
    have ih' := ih (fun k hk => h k (List.mem_cons_of_mem _ hk))
    by_cases hp : p l = true
    · rw [List.filter_cons_of_pos hp]
      exact checkWinnerFrom_cons_congr board l _ _ ih'
    · rw [List.filter_cons_of_neg hp, ih',
        checkWinnerFrom_cons_of_not_complete board l rest
          (h l (List.mem_cons_self _ _) (by simpa using hp))]

theorem lineHeldBy_set_of_not_through (board : Board) (i : Nat) (v : Cell)
    (l : Nat × Nat × Nat) (m : Mark) (h : l.1 ≠ i ∧ l.2.1 ≠ i ∧ l.2.2 ≠ i) :
    lineHeldBy (board.set i v) l m ↔ lineHeldBy board l m := by
  unfold lineHeldBy
  rw [List.getElem?_set_ne (Ne.symm h.1), List.getElem?_set_ne (Ne.symm h.2.1),
    List.getElem?_set_ne (Ne.symm h.2.2)]

theorem lineHeldBy_set_through (board : Board) (i : Nat) (p m : Mark) (l : Nat × Nat × Nat)
    (hlt : i < board.length) (h : l.1 = i ∨ l.2.1 = i ∨ l.2.2 = i)
    (hheld : lineHeldBy (board.set i (some p)) l m) : m = p := by
  have hcell : (board.set i (some p))[i]? = some (some p) := List.getElem?_set_self hlt
  obtain ⟨h1, h2, h3⟩ := hheld
  rcases h with h | h | h
  · rw [h, hcell] at h1
    simpa using h1.symm
  · rw [h, hcell] at h2
    simpa using h2.symm
  · rw [h, hcell] at h3
    simpa using h3.symm

theorem complete_after_move_through (board : Board) (i : Nat) (p m : Mark)
    (l : Nat × Nat × Nat) (hno : ¬ lineComplete board l)
    (hheld : lineHeldBy (board.set i (some p)) l m) :
    l.1 = i ∨ l.2.1 = i ∨ l.2.2 = i := by
  by_contra hnot
  push_neg at hnot
  exact hno ⟨m, (lineHeldBy_set_of_not_through board i _ l m hnot).1 hheld⟩

/-- C16: on a board with no complete line, for every empty cell `i` and every mark `m`,
if `checkWinner` on the board with `m` placed at `i` returns a result, its line contains
`i` and its winner is `m`; and the scan restricted to the entries of `WIN_LINES` that
pass through `i`, in the same order, returns the same result as the full scan. -/
theorem scan_through_played_cell (board : Board) (i : Nat) (m : Mark)
    (hno : ∀ l ∈ WIN_LINES, ¬ lineComplete board l) (hempty : board[i]? = some none) :
    (∀ r, checkWinner (board.set i (some m)) = some r → i ∈ r.line ∧ r.winner = m) ∧
    checkWinnerThrough (board.set i (some m)) i = checkWinner (board.set i (some m)) := by
  have hlt : i < board.length := by
    by_contra hge
    rw [List.getElem?_eq_none (Nat.le_of_not_lt hge)] at hempty
    exact absurd hempty (by simp)
  constructor
  · intro r hr
    obtain ⟨pre, l, post, hls, _, hline, hheld⟩ :=
      checkWinnerFrom_eq_some _ WIN_LINES r hr
    have hmem : l ∈ WIN_LINES := by rw [hls]; simp
    have hthrough := complete_after_move_through board i m r.winner l (hno l hmem) hheld
    refine ⟨?_, lineHeldBy_set_through board i m r.winner l hlt hthrough hheld⟩
    rw [hline]
    simp only [List.mem_cons, List.mem_singleton, List.not_mem_nil, or_false]
    rcases hthrough with h | h | h
    · exact Or.inl h.symm
    · exact Or.inr (Or.inl h.symm)
    · exact Or.inr (Or.inr h.symm)
  · unfold checkWinnerThrough checkWinner
    apply checkWinnerFrom_filter
    intro l hl hp hcomplete
    obtain ⟨w, hheld⟩ := hcomplete
    have hthrough := complete_after_move_through board i m w l (hno l hl) hheld
    simp only [decide_eq_false_iff_not] at hp
    exact hp hthrough

/-- Witness for C16: X holds cells 0 and 1 and O holds 3 and 4; X placed at the empty
cell 2 completes `[0, 1, 2]`, which both scans report. -/
theorem scan_through_played_cell_witness :
    (∀ l ∈ WIN_LINES, ¬ lineComplete
      [some Mark.X, some Mark.X, none, some Mark.O, some Mark.O, none, none, none, none] l) ∧
    checkWinner ([some Mark.X, some Mark.X, none, some Mark.O, some Mark.O, none, none, none,
      none].set 2 (some Mark.X)) = some { winner := Mark.X, line := [0, 1, 2] } ∧
    checkWinnerThrough ([some Mark.X, some Mark.X, none, some Mark.O, some Mark.O, none, none,
      none, none].set 2 (some Mark.X)) 2 =
      checkWinner ([some Mark.X, some Mark.X, none, some Mark.O, some Mark.O, none, none, none,
        none].set 2 (some Mark.X)) :=
  ⟨by decide, by decide,
   (scan_through_played_cell
      [some Mark.X, some Mark.X, none, some Mark.O, some Mark.O, none, none, none, none]
      2 Mark.X (by decide) (by decide)).2⟩

/-! ## Startup -/

/-- C17 does not hold of the script: when the page loads, the three listeners are
registered and then line 179, `rrender();`, raises a `ReferenceError`, the script
declaring no `rrender`.  The run stops there: no `render` call is made (no cell is
painted, no status is set) and the board is not focused.  With `render` in place of
`rrender`, as the comment `Initial render` announces, the same statements paint the
empty board with cell 0 selected, set the status `Turn: X`, focus the board and end
without error. -/
theorem startup_stops_at_line_179 :
    startup.error = some "ReferenceError: rrender is not defined" ∧
    startup.state = initialState ∧
    startup.effects =
      [Effect.addEventListener "boardEl" "click", Effect.addEventListener "window" "keydown",
       Effect.addEventListener "resetBtn" "click"] ∧
    runStatements initialState
      [Statement.addEventListener "boardEl" "click",
       Statement.addEventListener "window" "keydown",
       Statement.addEventListener "resetBtn" "click",
       Statement.call "render",
       Statement.focusBoard] =
      { state := initialState,
        effects :=
          [Effect.addEventListener "boardEl" "click",
           Effect.addEventListener "window" "keydown",
           Effect.addEventListener "resetBtn" "click",
           Effect.paintCells [none, none, none, none, none, none, none, none, none] 0 false,
           Effect.setStatus "Turn: X" "info",
           Effect.focusBoard],
        error := none } := by
  decide

/-! ## Invariants of the reachable states -/

theorem handleMove_selectedIndex_irrelevant (s : State) (k i : Int) :
    (handleMove { s with selectedIndex := k } i).1 =
      { (handleMove s i).1 with selectedIndex := k } := by
  unfold handleMove
  simp only
  split
  · rfl
  · split
    · rfl
    · split
      · rfl
      · split <;> rfl

theorem step_cases (s : State) (e : Event) :
    step s e = initialState ∨
    (∃ k, step s e = { s with selectedIndex := k }) ∨
    (∃ i k, step s e = { (handleMove s i).1 with selectedIndex := k }) := by
  cases e with
  | handleMove index => exact Or.inr (Or.inr ⟨index, (handleMove s index).1.selectedIndex, rfl⟩)
  | moveSelection dx dy => exact Or.inr (Or.inl ⟨_, rfl⟩)
  | selectFromMouse index => exact Or.inr (Or.inl ⟨_, rfl⟩)
  | resetGame => exact Or.inl rfl
  | click cell =>
    cases cell with
    | none => exact Or.inr (Or.inl ⟨s.selectedIndex, rfl⟩)
    | some index =>
      refine Or.inr (Or.inr ⟨index, index, ?_⟩)
      change (handleMove { s with selectedIndex := index } index).1 = _
      rw [handleMove_selectedIndex_irrelevant]
  | keydown ae key =>
    change (keydown s ae key).1 = initialState ∨
      (∃ k, (keydown s ae key).1 = { s with selectedIndex := k }) ∨
      (∃ i k, (keydown s ae key).1 = { (handleMove s i).1 with selectedIndex := k })
    rcases keydown_state_cases s ae key with h | ⟨dx, dy, h⟩ | h
    · exact Or.inr (Or.inl ⟨s.selectedIndex, h⟩)
    · exact Or.inr (Or.inl ⟨_, h⟩)
    · exact Or.inr (Or.inr ⟨s.selectedIndex, (handleMove s s.selectedIndex).1.selectedIndex, h⟩)

theorem run_preserves (P : State → Prop) (hreset : P initialState)
    (hsel : ∀ s k, P s → P { s with selectedIndex := k })
    (hmove : ∀ s i, P s → P (handleMove s i).1) (s : State) (evs : List Event) (h : P s) :
    P (run s evs) := by
  induction evs generalizing s with
  | nil => exact h
  | cons e rest ih =>
    apply ih
    rcases step_cases s e with h1 | ⟨k, h1⟩ | ⟨i, k, h1⟩
    · rw [h1]; exact hreset
    · rw [h1]; exact hsel s k h
    · rw [h1]; exact hsel _ k (hmove s i h)

theorem handleMove_placed_outcome (s : State) (i : Int) (hgo : s.gameOver = false)
    (hempty : cellAt s.board i = some none) :
    ((handleMove s i).1.gameOver = true ∧ (handleMove s i).1.currentPlayer = s.currentPlayer ∧
      (checkWinner (handleMove s i).1.board ≠ none ∨ isDraw (handleMove s i).1.board = true)) ∨
    ((handleMove s i).1.gameOver = false ∧
      (handleMove s i).1.currentPlayer = otherPlayer s.currentPlayer ∧
      checkWinner (handleMove s i).1.board = none ∧ isDraw (handleMove s i).1.board = false) := by
  rw [handleMove_board s i hgo hempty]
  by_cases hw : checkWinner (s.board.set i.toNat (some s.currentPlayer)) = none
  · by_cases hd : isDraw (s.board.set i.toNat (some s.currentPlayer)) = true
    · have h := handleMove_draw s i hgo hempty hw hd
      exact Or.inl ⟨h.1, h.2, Or.inr hd⟩
    · have hd' : isDraw (s.board.set i.toNat (some s.currentPlayer)) = false := by simpa using hd
      have h := handleMove_continue s i hgo hempty hw hd'
      exact Or.inr ⟨h.1, h.2, hw, hd'⟩
  · have h := handleMove_win s i hgo hempty hw
    exact Or.inl ⟨h.1, h.2, Or.inl hw⟩

theorem handleMove_noop_or_placing (s : State) (i : Int) :
    handleMove s i = (s, []) ∨ (s.gameOver = false ∧ cellAt s.board i = some none) := by
  by_cases hn : s.gameOver = true ∨ cellAt s.board i ≠ some none
  · exact Or.inl (handleMove_noop s i hn)
  · push_neg at hn
    exact Or.inr ⟨by simpa using hn.1, hn.2⟩

theorem overInv_initialState : OverInv initialState := by
  refine ⟨rfl, fun _ => ⟨?_, by decide⟩, fun h => absurd h (by decide)⟩
  decide

theorem overInv_handleMove (s : State) (i : Int) (h : OverInv s) :
    OverInv (handleMove s i).1 := by
  rcases handleMove_noop_or_placing s i with hn | ⟨hgo, hempty⟩
  · rw [hn]; exact h
  · have hlen : (handleMove s i).1.board.length = 9 := by
      rw [handleMove_board s i hgo hempty, List.length_set]
      exact h.1
    rcases handleMove_placed_outcome s i hgo hempty with ⟨h1, _, h3⟩ | ⟨h1, _, h3, h4⟩
    · refine ⟨hlen, fun hf => ?_, fun _ => h3⟩
      rw [h1] at hf
      exact absurd hf (by simp)
    · refine ⟨hlen, fun _ => ⟨(checkWinnerFrom_eq_none_iff _ _).1 h3, h4⟩, fun ht => ?_⟩
      rw [h1] at ht
      exact absurd ht (by simp)

theorem run_overInv (evs : List Event) : OverInv (run initialState evs) :=
  run_preserves OverInv overInv_initialState (fun _ _ h => h) overInv_handleMove
    initialState evs overInv_initialState

theorem exists_empty_of_isDraw_false (board : Board) (h : isDraw board = false) :
    ∃ k, k < board.length ∧ board[k]? = some none := by
  have hnot : ¬ ∀ i, i < board.length → occupied board i := by
    rw [← isDraw_eq_true_iff, h]
    simp
  push_neg at hnot
  obtain ⟨k, hk, hocc⟩ := hnot
  refine ⟨k, hk, ?_⟩
  rw [List.getElem?_eq_getElem hk]
  cases hc : board[k] with
  | none => rfl
  | some m =>
    exfalso
    apply hocc
    exact ⟨m, by rw [List.getElem?_eq_getElem hk, hc]⟩

/-- C18: in every state reached from the initial state by any sequence of events
(`handleMove` with any index, `moveSelection`, `selectFromMouse`, `resetGame`, and also
clicks and key presses), `gameOver` is `true` if and only if `checkWinner` finds a winner
or every cell is occupied; and while `gameOver` is `false` the board has no complete
line and at least one empty cell. -/
theorem gameOver_iff_won_or_full (evs : List Event) :
    ((run initialState evs).gameOver = true ↔
      (checkWinner (run initialState evs).board ≠ none ∨
        ∀ k, k < 9 → occupied (run initialState evs).board k)) ∧
    ((run initialState evs).gameOver = false →
      (∀ l ∈ WIN_LINES, ¬ lineComplete (run initialState evs).board l) ∧
      ∃ k, k < 9 ∧ (run initialState evs).board[k]? = some none) := by
  obtain ⟨hlen, hb, hc⟩ := run_overInv evs
  have hfull := isDraw_eq_true_iff (run initialState evs).board
  rw [hlen] at hfull
  constructor
  · constructor
    · intro ht
      rcases hc ht with h | h
      · exact Or.inl h
      · exact Or.inr (hfull.1 h)
    · intro hor
      by_contra hne
      obtain ⟨hno, hd⟩ := hb (by simpa using hne)
      rcases hor with h | h
      · exact h ((checkWinnerFrom_eq_none_iff _ _).2 hno)
      · rw [hfull.2 h] at hd
        exact absurd hd (by simp)
  · intro hf
    obtain ⟨hno, hd⟩ := hb hf
    refine ⟨hno, ?_⟩
    have := exists_empty_of_isDraw_false _ hd
    rwa [hlen] at this

/-- Witness for C18: after the winning game 0, 1, 3, 4, 6, played by clicks, and a
later `selectFromMouse(40)`, the game is over and `checkWinner` finds X; after a reset
and one move the game is in progress and cell 1 is empty. -/
theorem gameOver_iff_won_or_full_witness :
    (run initialState [Event.click (some 0), Event.click (some 1), Event.click (some 3),
      Event.click (some 4), Event.click (some 6), Event.selectFromMouse 40]).gameOver = true ∧
    (checkWinner (run initialState [Event.click (some 0), Event.click (some 1),
      Event.click (some 3), Event.click (some 4), Event.click (some 6),
      Event.selectFromMouse 40]).board ≠ none ∨
     ∀ k, k < 9 → occupied (run initialState [Event.click (some 0), Event.click (some 1),
      Event.click (some 3), Event.click (some 4), Event.click (some 6),
      Event.selectFromMouse 40]).board k) ∧
    (run initialState [Event.click (some 0), Event.resetGame,
      Event.handleMove 0]).gameOver = false ∧
    (∃ k, k < 9 ∧ (run initialState [Event.click (some 0), Event.resetGame,
      Event.handleMove 0]).board[k]? = some none) :=
  ⟨by decide,
   (gameOver_iff_won_or_full [Event.click (some 0), Event.click (some 1),
      Event.click (some 3), Event.click (some 4), Event.click (some 6),
      Event.selectFromMouse 40]).1.1 (by decide),
   by decide,
   ((gameOver_iff_won_or_full [Event.click (some 0), Event.resetGame,
      Event.handleMove 0]).2 (by decide)).2⟩

theorem countMark_set_empty (board : Board) (i : Nat) (p m : Mark)
    (h : board[i]? = some none) :
    countMark (board.set i (some p)) m = countMark board m + (if p = m then 1 else 0) := by
  unfold countMark
  induction board generalizing i with
  | nil => simp at h
  | cons c rest ih =>
    cases i with
    | zero =>
      simp only [List.getElem?_cons_zero, Option.some.injEq] at h
      subst h
      by_cases hpm : p = m
      · subst hpm
        simp [List.count_cons]
      · have hne : ¬ (some p : Cell) = some m := by simpa using hpm
        simp [List.count_cons, hpm, hne]
    | succ i =>
      simp only [List.getElem?_cons_succ] at h
      simp only [List.set_cons_succ, List.count_cons, ih i h]
      omega

theorem countInv_initialState : CountInv initialState := by
  refine ⟨fun _ => Or.inl ⟨rfl, by decide⟩, fun h => absurd h (by decide)⟩

theorem countInv_handleMove (s : State) (i : Int) (h : CountInv s) :
    CountInv (handleMove s i).1 := by
  rcases handleMove_noop_or_placing s i with hn | ⟨hgo, hempty⟩
  · rw [hn]; exact h
  · have h0 := nonneg_of_cellAt_eq_some _ _ _ hempty
    have hcell : s.board[i.toNat]? = some none := by
      simpa only [cellAt, if_pos h0] using hempty
    have hb := handleMove_board s i hgo hempty
    have hx := countMark_set_empty s.board i.toNat s.currentPlayer Mark.X hcell
    have ho := countMark_set_empty s.board i.toNat s.currentPlayer Mark.O hcell
    rw [← hb] at hx ho
    have hbefore := h.1 hgo
    unfold CountInv
    rcases handleMove_placed_outcome s i hgo hempty with ⟨h1, h2, _⟩ | ⟨h1, h2, _, _⟩
    · rw [h1, h2, hx, ho]
      refine ⟨fun hf => absurd hf (by simp), fun _ => ?_⟩
      rcases hbefore with ⟨hp, hc⟩ | ⟨hp, hc⟩
      · left
        rw [hp]
        simp only [if_true, if_neg (show ¬ Mark.X = Mark.O by decide)]
        exact ⟨trivial, by omega⟩
      · right
        rw [hp]
        simp only [if_true, if_neg (show ¬ Mark.O = Mark.X by decide)]
        exact ⟨trivial, by omega⟩
    · rw [h1, h2, hx, ho]
      refine ⟨fun _ => ?_, fun ht => absurd ht (by simp)⟩
      rcases hbefore with ⟨hp, hc⟩ | ⟨hp, hc⟩
      · right
        rw [hp]
        simp only [if_true, if_neg (show ¬ Mark.X = Mark.O by decide)]
        exact ⟨rfl, by omega⟩
      · left
        rw [hp]
        simp only [if_true, if_neg (show ¬ Mark.O = Mark.X by decide)]
        exact ⟨rfl, by omega⟩

theorem run_countInv (evs : List Event) : CountInv (run initialState evs) :=
  run_preserves CountInv countInv_initialState (fun _ _ h => h) countInv_handleMove
    initialState evs countInv_initialState

/-- C19: in every state reached from the initial state by any sequence of events
(`handleMove` with any index, `moveSelection`, `selectFromMouse`, `resetGame`, and also
clicks and key presses), the number of X marks equals the number of O marks or exceeds
it by exactly one; and while `gameOver` is `false`, `currentPlayer` is X exactly when
the two counts are equal and O exactly when X has one more. -/
theorem marks_balanced (evs : List Event) :
    (countMark (run initialState evs).board Mark.X = countMark (run initialState evs).board Mark.O ∨
      countMark (run initialState evs).board Mark.X =
        countMark (run initialState evs).board Mark.O + 1) ∧
    ((run initialState evs).gameOver = false →
      ((run initialState evs).currentPlayer = Mark.X ↔
        countMark (run initialState evs).board Mark.X =
          countMark (run initialState evs).board Mark.O) ∧
      ((run initialState evs).currentPlayer = Mark.O ↔
        countMark (run initialState evs).board Mark.X =
          countMark (run initialState evs).board Mark.O + 1)) := by
  obtain ⟨h1, h2⟩ := run_countInv evs
  constructor
  · cases hg : (run initialState evs).gameOver with
    | false =>
      rcases h1 hg with ⟨_, hc⟩ | ⟨_, hc⟩
      · exact Or.inl hc
      · exact Or.inr hc
    | true =>
      rcases h2 hg with ⟨_, hc⟩ | ⟨_, hc⟩
      · exact Or.inr hc
      · exact Or.inl hc
  · intro hg
    rcases h1 hg with ⟨hp, hc⟩ | ⟨hp, hc⟩
    · refine ⟨⟨fun _ => hc, fun _ => hp⟩, ⟨fun ho => ?_, fun hc' => ?_⟩⟩
      · rw [hp] at ho
        exact absurd ho (by decide)
      · omega
    · refine ⟨⟨fun hx => ?_, fun hc' => ?_⟩, ⟨fun _ => hc, fun _ => hp⟩⟩
      · rw [hp] at hx
        exact absurd hx (by decide)
      · omega

/-- Witness for C19: after X at 4, O at 0 (by Enter on the selected cell 0) and X at 8,
with a refused second move at 4 in between, X has two marks and O one, the game is in
progress and it is O's turn. -/
theorem marks_balanced_witness :
    countMark (run initialState [Event.handleMove 4, Event.handleMove 4,
      Event.keydown none "Enter", Event.click (some 8)]).board Mark.X = 2 ∧
    countMark (run initialState [Event.handleMove 4, Event.handleMove 4,
      Event.keydown none "Enter", Event.click (some 8)]).board Mark.O = 1 ∧
    (run initialState [Event.handleMove 4, Event.handleMove 4,
      Event.keydown none "Enter", Event.click (some 8)]).gameOver = false ∧
    (run initialState [Event.handleMove 4, Event.handleMove 4,
      Event.keydown none "Enter", Event.click (some 8)]).currentPlayer = Mark.O :=
  ⟨by decide, by decide, by decide,
   ((marks_balanced [Event.handleMove 4, Event.handleMove 4,
      Event.keydown none "Enter", Event.click (some 8)]).2 (by decide)).2.2 (by decide)⟩

theorem lineInv_initialState : LineInv initialState := by
  refine ⟨overInv_initialState, ?_⟩
  decide

theorem lineInv_handleMove (s : State) (i : Int) (h : LineInv s) :
    LineInv (handleMove s i).1 := by
  refine ⟨overInv_handleMove s i h.1, ?_⟩
  rcases handleMove_noop_or_placing s i with hn | ⟨hgo, hempty⟩
  · rw [hn]; exact h.2
  · have h0 := nonneg_of_cellAt_eq_some _ _ _ hempty
    have hcell : s.board[i.toNat]? = some none := by
      simpa only [cellAt, if_pos h0] using hempty
    have hlt : i.toNat < s.board.length := by
      by_contra hge
      rw [List.getElem?_eq_none (Nat.le_of_not_lt hge)] at hcell
      exact absurd hcell (by simp)
    have hno := (h.1.2.1 hgo).1
    intro l hl m hheld
    rcases handleMove_placed_outcome s i hgo hempty with ⟨_, h2, _⟩ | ⟨_, _, h3, _⟩
    · rw [h2]
      rw [handleMove_board s i hgo hempty] at hheld
      have hthrough :=
        complete_after_move_through s.board i.toNat s.currentPlayer m l (hno l hl) hheld
      exact lineHeldBy_set_through s.board i.toNat s.currentPlayer m l hlt hthrough hheld
    · exact absurd ⟨m, hheld⟩ ((checkWinnerFrom_eq_none_iff _ _).1 h3 l hl)

theorem run_lineInv (evs : List Event) : LineInv (run initialState evs) :=
  run_preserves LineInv lineInv_initialState (fun _ _ h => h) lineInv_handleMove
    initialState evs lineInv_initialState

theorem step_of_moveIndex_some (s : State) (e : Event) (i : Int)
    (h : e.moveIndex s = some i) :
    ∃ k, step s e = { (handleMove s i).1 with selectedIndex := k } := by
  cases e with
  | handleMove index =>
    simp only [Event.moveIndex, Option.some.injEq] at h
    subst h
    exact ⟨(handleMove s index).1.selectedIndex, rfl⟩
  | moveSelection dx dy => simp [Event.moveIndex] at h
  | selectFromMouse index => simp [Event.moveIndex] at h
  | resetGame => simp [Event.moveIndex] at h
  | click cell =>
    cases cell with
    | none => simp [Event.moveIndex] at h
    | some index =>
      simp only [Event.moveIndex, Option.some.injEq] at h
      subst h
      refine ⟨index, ?_⟩
      change (handleMove { s with selectedIndex := index } index).1 = _
      rw [handleMove_selectedIndex_irrelevant]
  | keydown ae key =>
    simp only [Event.moveIndex] at h
    split at h
    · next hc =>
      simp only [Option.some.injEq] at h
      subst h
      obtain ⟨hg, ht, hk⟩ := hc
      refine ⟨(handleMove s s.selectedIndex).1.selectedIndex, ?_⟩
      change (keydown s ae key).1 = _
      rcases hk with hk | hk
      · subst hk
        rw [keydown_handled s ae _ hg ht (by decide)]
        simp
      · subst hk
        rw [keydown_handled s ae _ hg ht (by decide)]
        simp
    · exact absurd h (by simp)

theorem step_of_moveIndex_none (s : State) (e : Event) (h : e.moveIndex s = none) :
    step s e = initialState ∨ ∃ k, step s e = { s with selectedIndex := k } := by
  cases e with
  | handleMove index => simp [Event.moveIndex] at h
  | moveSelection dx dy => exact Or.inr ⟨_, rfl⟩
  | selectFromMouse index => exact Or.inr ⟨_, rfl⟩
  | resetGame => exact Or.inl rfl
  | click cell =>
    cases cell with
    | none => exact Or.inr ⟨s.selectedIndex, rfl⟩
    | some index => simp [Event.moveIndex] at h
  | keydown ae key =>
    right
    change ∃ k, (keydown s ae key).1 = { s with selectedIndex := k }
    by_cases hi : s.gameOver = true ∨ isTypingInField ae = true ∨ ¬ key ∈ gameKeys
    · rw [keydown_ignored s ae key hi]
      exact ⟨s.selectedIndex, rfl⟩
    · push_neg at hi
      obtain ⟨hg, ht, hk⟩ := hi
      have hg' : s.gameOver = false := by simpa using hg
      have ht' : isTypingInField ae = false := by simpa using ht
      have hne : ¬ (key = "Enter" ∨ key = " ") := by
        intro hkey
        simp only [Event.moveIndex, hg', ht', hkey, and_self, if_true] at h
        exact absurd h (by simp)
      rw [keydown_handled s ae key hg' ht' hk]
      simp only [if_neg hne]
      split
      · exact ⟨_, rfl⟩
      · split
        · exact ⟨_, rfl⟩
        · split
          · exact ⟨_, rfl⟩
          · split
            · exact ⟨_, rfl⟩
            · exact ⟨s.selectedIndex, rfl⟩

theorem lastMover_of_gameOver (s : State) (last : Option Mark) (evs : List Event)
    (h : s.gameOver = true → last = some s.currentPlayer) :
    (run s evs).gameOver = true → lastMover s last evs = some (run s evs).currentPlayer := by
  induction evs generalizing s last with
  | nil => exact h
  | cons e rest ih =>
    change (run (step s e) rest).gameOver = true →
      lastMover s last (e :: rest) = some (run (step s e) rest).currentPlayer
    unfold lastMover
    cases hm : e.moveIndex s with
    | none =>
      simp only
      apply ih
      rcases step_of_moveIndex_none s e hm with h1 | ⟨k, h1⟩
      · rw [h1]
        intro hf
        exact absurd hf (by decide)
      · rw [h1]
        exact h
    | some i =>
      simp only
      obtain ⟨k, h1⟩ := step_of_moveIndex_some s e i hm
      by_cases hp : s.gameOver = false ∧ cellAt s.board i = some none
      · rw [if_pos hp]
        apply ih
        rw [h1]
        intro hover
        rcases handleMove_placed_outcome s i hp.1 hp.2 with ⟨_, h2, _⟩ | ⟨h2, _, _, _⟩
        · exact congrArg some h2.symm
        · change (handleMove s i).1.gameOver = true at hover
          rw [h2] at hover
          exact absurd hover (by simp)
      · rw [if_neg hp]
        apply ih
        rw [h1]
        have hn : handleMove s i = (s, []) := by
          rcases handleMove_noop_or_placing s i with hn | hn
          · exact hn
          · exact absurd hn hp
        rw [hn]
        exact h

/-- C20: in no state reached from the initial state by any sequence of events
(`handleMove` with any index, `moveSelection`, `selectFromMouse`, `resetGame`, and also
clicks and key presses) do both players hold a complete line: no line of `WIN_LINES` is
held by X while another is held by O.  When `checkWinner` finds a winner, it is the
player who placed the last mark, and `currentPlayer` still holds that player. -/
theorem no_two_winners (evs : List Event) :
    (∀ l ∈ WIN_LINES, ∀ k ∈ WIN_LINES,
      ¬ (lineHeldBy (run initialState evs).board l Mark.X ∧
          lineHeldBy (run initialState evs).board k Mark.O)) ∧
    (∀ r, checkWinner (run initialState evs).board = some r →
      lastMover initialState none evs = some r.winner ∧
      (run initialState evs).currentPlayer = r.winner) := by
  obtain ⟨hover, hline⟩ := run_lineInv evs
  constructor
  · intro l hl k hk hboth
    have hx := hline l hl Mark.X hboth.1
    have ho := hline k hk Mark.O hboth.2
    rw [← hx] at ho
    exact absurd ho (by decide)
  · intro r hr
    obtain ⟨pre, l, post, hls, _, _, hheld⟩ := checkWinnerFrom_eq_some _ WIN_LINES r hr
    have hmem : l ∈ WIN_LINES := by rw [hls]; simp
    have hcur := hline l hmem r.winner hheld
    have hgo : (run initialState evs).gameOver = true := by
      by_contra hne
      exact (hover.2.1 (by simpa using hne)).1 l hmem ⟨r.winner, hheld⟩
    refine ⟨?_, hcur.symm⟩
    rw [hcur]
    exact lastMover_of_gameOver initialState none evs (fun hf => absurd hf (by decide)) hgo

/-- Witness for C20: in the game 0, 1, 3, 4, 6 (the last move by Enter on cell 6,
selected by two ArrowDown presses) X wins on `[0, 3, 6]`; X placed the last mark and is
still `currentPlayer`. -/
theorem no_two_winners_witness :
    checkWinner (run initialState [Event.click (some 0), Event.click (some 1),
      Event.click (some 3), Event.click (some 4), Event.selectFromMouse 0,
      Event.keydown none "ArrowDown", Event.keydown none "ArrowDown",
      Event.keydown none "Enter"]).board = some { winner := Mark.X, line := [0, 3, 6] } ∧
    lastMover initialState none [Event.click (some 0), Event.click (some 1),
      Event.click (some 3), Event.click (some 4), Event.selectFromMouse 0,
      Event.keydown none "ArrowDown", Event.keydown none "ArrowDown",
      Event.keydown none "Enter"] = some Mark.X ∧
    (run initialState [Event.click (some 0), Event.click (some 1),
      Event.click (some 3), Event.click (some 4), Event.selectFromMouse 0,
      Event.keydown none "ArrowDown", Event.keydown none "ArrowDown",
      Event.keydown none "Enter"]).currentPlayer = Mark.X :=
  ⟨by decide,
   (no_two_winners [Event.click (some 0), Event.click (some 1),
      Event.click (some 3), Event.click (some 4), Event.selectFromMouse 0,
      Event.keydown none "ArrowDown", Event.keydown none "ArrowDown",
      Event.keydown none "Enter"]).2 { winner := Mark.X, line := [0, 3, 6] } (by decide)⟩

end TicTacToe
